import Mathlib

/-!
Verification of `data/rawv2` (Ruuvi RAWv2 / Cut-RAWv2 decoder)

Shallow embedding of `src/data/rawv2/rawv2.go`.

Conventions of the embedding:

* a Go `byte` is a `Fin 256`, a `uint16` argument is a `Fin 65536`; every
  arithmetic step is done on `Nat`/`Int` with the wrap-around of the Go type
  written out (`% 65536`, `% 2^32`, `wrapInt16`);
* a Go `[]byte` is a `List Byte`; its capacity is taken to be its length;
* a Go call either returns a value, returns an `error`, or panics at run time
  (index or slice bound out of range): `Outcome`;
* `float32` values are kept as the expression that computes them (`F32`);
  `F32.eval` gives the value of the expression in IEEE 754 binary32, every
  conversion and operation rounded to nearest, ties to even;
* `time.Time` is opaque to the decoder: the reading is polymorphic in it.
-/

namespace Rawv2

/-! ## Machine types -/

/-- Go `byte` / `uint8`. -/
abbrev Byte := Fin 256

/-- Go `uint16`. -/
abbrev U16 := Fin 65536

/-- Go conversion `int16(x)` of an unsigned 16-bit pattern: two's complement. -/
def int16 (n : Nat) : Int :=
  if n % 65536 < 32768 then ((n % 65536 : Nat) : Int) else ((n % 65536 : Nat) : Int) - 65536

/-- Result of an `int16` arithmetic operation: wrap into `-32768 .. 32767`. -/
def wrapInt16 (i : Int) : Int :=
  (i + 32768) % 65536 - 32768

/-- A `float32` value, kept as the expression the source computes it with. -/
inductive F32 where
  /-- the zero value of a `float32` field -/
  | zero
  /-- conversion `float32(i)` of an integer -/
  | ofInt (i : Int)
  /-- an untyped decimal constant `m / 10^e` converted to `float32` -/
  | const (m : Nat) (e : Nat)
  /-- `a * b` -/
  | mul (a b : F32)
  /-- `a / b` -/
  | div (a b : F32)
  /-- `a + b` -/
  | add (a b : F32)
  deriving DecidableEq, Repr

/-! ## Errors and outcomes -/

/-- The package's sentinel errors (`var ( ... )`, lines 18-22). -/
inductive Sentinel where
  | ErrorPacketTooSmall
  | ErrorPacketNotV2
  | ErrorBadMAC
  deriving DecidableEq, Repr

/-- The sentinel's message, `errors.New(...)`. -/
def Sentinel.text : Sentinel → String
  | .ErrorPacketTooSmall => "packet too small"
  | .ErrorPacketNotV2 => "packet has wrong version"
  | .ErrorBadMAC => "not a valid MAC address"

/-- An error built by `fmt.Errorf("%w: ...", sentinel, ...)`: the wrapped
sentinel and the text that follows it. -/
structure Error where
  wraps : Sentinel
  detail : String
  deriving DecidableEq, Repr

/-- Go `errors.Is(err, target)` for an error built by `fmt.Errorf("%w...")`. -/
def errorsIs (e : Error) (target : Sentinel) : Bool :=
  e.wraps == target

/-- What a Go call of type `(T, error)` can do: return a value with a nil
error, return an error, or panic at run time. -/
inductive Outcome (α : Type) where
  | ok (r : α)
  | error (e : Error)
  | panic
  deriving DecidableEq, Repr

/-- Sequencing of Go statements: an error return or a panic ends the call. -/
def Outcome.bind {α β : Type} (x : Outcome α) (f : α → Outcome β) : Outcome β :=
  match x with
  | .ok r => f r
  | .error e => .error e
  | .panic => .panic

instance : Monad Outcome where
  pure := Outcome.ok
  bind := Outcome.bind

/-! ## Slices -/

/-- Go index expression `d[i]`: panics when `i` is out of range. -/
def index (d : List Byte) (i : Nat) : Outcome Byte :=
  match d[i]? with
  | some b => .ok b
  | none => .panic

/-- Go slice expression `d[s:]`: panics when `s > len(d)`. -/
def sliceFrom (d : List Byte) (s : Nat) : Outcome (List Byte) :=
  if s ≤ d.length then .ok (d.drop s) else .panic

/-- Go slice expression `d[lo:hi]`: panics unless `lo ≤ hi ≤ cap(d)`; the
capacity is taken to be the length. -/
def slice (d : List Byte) (lo hi : Nat) : Outcome (List Byte) :=
  if lo ≤ hi ∧ hi ≤ d.length then .ok ((d.take hi).drop lo) else .panic

/-- Go `binary.BigEndian.Uint16(b)`: `_ = b[1]` (bounds check), then
`uint16(b[1]) | uint16(b[0])<<8`. -/
def Uint16 (b : List Byte) : Outcome U16 :=
  match b with
  | b0 :: b1 :: _ =>
    .ok ⟨(b1.val ||| ((b0.val <<< 8) % 65536)) % 65536, Nat.mod_lt _ (by decide)⟩
  | _ => .panic

/-! ## Data model (lines 24-130) -/

def VERSION_PLAIN : Nat := 0x05
def VERSION_CUT : Nat := 0xC5

/-- Temperature is degrees Celsius. -/
structure Temperature where
  Valid : Bool := false
  Value : F32 := F32.zero
  deriving DecidableEq, Repr

/-- Humidity is relative air humidity in percentage. -/
structure Humidity where
  Valid : Bool := false
  Value : F32 := F32.zero
  deriving DecidableEq, Repr

/-- Pressure is Pascals (`uint32`). -/
structure Pressure where
  Valid : Bool := false
  Value : Nat := 0
  deriving DecidableEq, Repr

/-- Acceleration is Milli-G (`int16`). -/
structure Acceleration where
  Valid : Bool := false
  Value : Int := 0
  deriving DecidableEq, Repr

/-- BatteryVoltage is Volts. -/
structure BatteryVoltage where
  Valid : Bool := false
  Value : F32 := F32.zero
  deriving DecidableEq, Repr

/-- TransmitPower is dBm (`int16`). -/
structure TransmitPower where
  Valid : Bool := false
  Value : Int := 0
  deriving DecidableEq, Repr

/-- MovementCounter is raw count (`uint8`). -/
structure MovementCounter where
  Valid : Bool := false
  Value : Nat := 0
  deriving DecidableEq, Repr

/-- SequenceNumber is raw count (`uint16`). -/
structure SequenceNumber where
  Valid : Bool := false
  Value : Nat := 0
  deriving DecidableEq, Repr

/-- MAC is the device's MAC address, `Value [6]byte`. -/
structure MAC where
  Value : Fin 6 → Byte := fun _ => 0

/-- The decoded reading; every field defaults to its Go zero value. -/
structure RuuviRawV2 (τ : Type) where
  /-- the source field `Type` (a reserved word here) -/
  Type_ : Nat := 0
  Timestamp : τ
  Temperature : Temperature := {}
  Humidity : Humidity := {}
  Pressure : Pressure := {}
  AccelerationX : Acceleration := {}
  AccelerationY : Acceleration := {}
  AccelerationZ : Acceleration := {}
  BatteryVoltage : BatteryVoltage := {}
  TransmitPower : TransmitPower := {}
  MovementCounter : MovementCounter := {}
  SequenceNumber : SequenceNumber := {}
  MAC : MAC := {}

/-! ## Field transforms (lines 188-266) -/

def newTemperature (raw : U16) : Temperature :=
  let p : Temperature := { Valid := true }
  let p := if raw.val = 0x8000 then { p with Valid := false } else p
  { p with Value := F32.mul (F32.ofInt (int16 raw.val)) (F32.const 5 3) }

def newHumidity (raw : U16) : Humidity :=
  let p : Humidity := { Valid := true }
  let p := if raw.val = 0xffff then { p with Valid := false } else p
  { p with Value := F32.mul (F32.ofInt raw.val) (F32.const 25 4) }

def newPressure (raw : U16) : Pressure :=
  let p : Pressure := { Valid := true }
  let p := if raw.val = 0xffff then { p with Valid := false } else p
  { p with Value := (raw.val % 2 ^ 32 + 50000 % 2 ^ 32) % 2 ^ 32 }

def newAcceleration (raw : U16) : Acceleration :=
  let p : Acceleration := { Valid := true }
  let p := if raw.val = 0x8000 then { p with Valid := false } else p
  { p with Value := int16 raw.val }

def newBatteryVoltage (raw : U16) : BatteryVoltage :=
  let raw : Nat := raw.val >>> 5
  let p : BatteryVoltage := { Valid := true }
  let p := if raw = 0x7ff then { p with Valid := false } else p
  { p with Value := F32.add (F32.div (F32.ofInt raw) (F32.const 1000 0)) (F32.const 16 1) }

def newTransmitPower (raw : U16) : TransmitPower :=
  let raw : Nat := raw.val &&& 0b11111
  let p : TransmitPower := { Valid := true }
  let p := if raw = 0x1f then { p with Valid := false } else p
  { p with Value := wrapInt16 (int16 ((raw * 2) % 65536) - 40) }

def newMovementCounter (raw : Byte) : MovementCounter :=
  let p : MovementCounter := { Valid := true }
  let p := if raw.val = 0xff then { p with Valid := false } else p
  { p with Value := raw.val % 256 }

def newSequenceNumber (raw : U16) : SequenceNumber :=
  let p : SequenceNumber := { Valid := true }
  let p := if raw.val = 0xffff then { p with Valid := false } else p
  { p with Value := raw.val }

/-- Go `copy(p.Value[:], raw)` into a zeroed `[6]byte`: the first
`min(6, len(raw))` bytes of `raw`, the rest stay zero. -/
def newMAC (raw : List Byte) : MAC :=
  { Value := fun i => raw.getD i.val 0 }

/-! ## The decoder (lines 132-186) -/

/-- Lines 159-185 of `ParseWithTime`: the field extraction that follows the
tag and length checks. -/
def decodeFields {τ : Type} (d : List Byte) (t : τ) : Outcome (RuuviRawV2 τ) := do
  let ty ← index d 0
  let mut r : RuuviRawV2 τ := { Timestamp := t, Type_ := ty.val % 256 }
  let mut s := 1
  r := { r with Temperature := newTemperature (← Uint16 (← sliceFrom d s)) }
  s := s + 2
  r := { r with Humidity := newHumidity (← Uint16 (← sliceFrom d s)) }
  s := s + 2
  r := { r with Pressure := newPressure (← Uint16 (← sliceFrom d s)) }
  s := s + 2
  if r.Type_ = VERSION_PLAIN then
    r := { r with AccelerationX := newAcceleration (← Uint16 (← sliceFrom d s)) }
    s := s + 2
    r := { r with AccelerationY := newAcceleration (← Uint16 (← sliceFrom d s)) }
    s := s + 2
    r := { r with AccelerationZ := newAcceleration (← Uint16 (← sliceFrom d s)) }
    s := s + 2
  let p ← Uint16 (← sliceFrom d s)
  r := { r with BatteryVoltage := newBatteryVoltage p }
  r := { r with TransmitPower := newTransmitPower p }
  s := s + 2
  r := { r with MovementCounter := newMovementCounter (← index d s) }
  s := s + 1
  r := { r with SequenceNumber := newSequenceNumber (← Uint16 (← sliceFrom d s)) }
  s := s + 2
  r := { r with MAC := newMAC (← slice d s (s + 6)) }
  return r

/-- Lines 146-186: `ParseWithTime(d, t)`. -/
def ParseWithTime {τ : Type} (d : List Byte) (t : τ) : Outcome (RuuviRawV2 τ) := do
  let mut minlen := 0
  let d0 ← index d 0
  if d0.val = VERSION_PLAIN then
    minlen := 24
  else if d0.val = VERSION_CUT then
    minlen := 18
  else
    let d0 ← index d 0
    return ← Outcome.error ⟨.ErrorPacketNotV2, ": " ++ toString d0.val⟩
  if d.length < minlen then
    return ← Outcome.error ⟨.ErrorPacketTooSmall, ": " ++ toString d.length ++ " octets"⟩
  decodeFields d t

/-- Lines 140-142: `Parse(d)`; the clock reading `time.Now()` is an argument. -/
def Parse {τ : Type} (now : τ) (d : List Byte) : Outcome (RuuviRawV2 τ) :=
  ParseWithTime d now

/-! ## The MAC text codec (lines 82-114)

The codec is written with `fmt.Sprintf`, `json.Marshal` and `fmt.Sscanf`. Text
is a `List Char`: for `string(b)` it is the sequence of runes the scanner
reads (a byte that is not valid UTF-8 reads as U+FFFD). -/

/-- Go `fmt`'s lower-case digit table `ldigits`. -/
def ldigits : List Char := "0123456789abcdef".toList

/-- Go `fmt`'s upper-case digit table `udigits`. -/
def udigits : List Char := "0123456789ABCDEF".toList

/-- Go `fmt.fmtInteger` in base 16, least significant digit first:
`for u >= 16 { digits[u&0xF]; u >>= 4 }; digits[u]`. The first argument bounds
the number of digits (16 for 64 bits). -/
def fmtHexRev (digits : List Char) : Nat → Nat → List Char
  | 0, _ => []
  | fuel + 1, u =>
    if u ≥ 16 then digits.getD (u &&& 0xF) '0' :: fmtHexRev digits fuel (u >>> 4)
    else [digits.getD u '0']

/-- The verbs `%0<wid>x` (table `ldigits`) and `%0<wid>X` (table `udigits`) of
an unsigned integer: its hexadecimal digits, padded on the left with zeros to
`wid` characters. -/
def fmtHex (digits : List Char) (wid : Nat) (u : Nat) : List Char :=
  let ds := (fmtHexRev digits 16 u).reverse
  List.replicate (wid - ds.length) '0' ++ ds

/-- Lines 82-86: `fmt.Sprintf("%02x:%02x:%02x:%02x:%02x:%02x", v.Value[0], ...)`. -/
def MAC.String (v : MAC) : List Char :=
  fmtHex ldigits 2 (v.Value 0).val ++ [':'] ++ fmtHex ldigits 2 (v.Value 1).val ++ [':'] ++
  fmtHex ldigits 2 (v.Value 2).val ++ [':'] ++ fmtHex ldigits 2 (v.Value 3).val ++ [':'] ++
  fmtHex ldigits 2 (v.Value 4).val ++ [':'] ++ fmtHex ldigits 2 (v.Value 5).val

/-- Go `encoding/json`, one rune of a string value with HTML escaping on: the
quote and the backslash get a backslash, the control characters with a short
form get it, the other control characters and `<`, `>`, `&`, U+2028 and U+2029
are written `\uXXXX`, every other rune is copied. -/
def jsonEscape (c : Char) : List Char :=
  let n := c.toNat
  if c = '"' ∨ c = '\\' then ['\\', c]
  else if n = 0x08 then ['\\', 'b']
  else if n = 0x0c then ['\\', 'f']
  else if c = '\n' then ['\\', 'n']
  else if c = '\r' then ['\\', 'r']
  else if c = '\t' then ['\\', 't']
  else if n < 0x20 ∨ c = '<' ∨ c = '>' ∨ c = '&' ∨ n = 0x2028 ∨ n = 0x2029 then
    ['\\', 'u'] ++ fmtHex ldigits 4 n
  else [c]

/-- Go `json.Marshal` of a string: the escaped runes between double quotes. -/
def jsonMarshalString (s : List Char) : List Char :=
  '"' :: (s.flatMap jsonEscape ++ ['"'])

/-- Lines 88-90: `json.Marshal(v.String())`; the call returns no error. -/
def MAC.MarshalJSON (v : MAC) : List Char :=
  jsonMarshalString v.String

/-- Go `fmt.isSpace`: the runes of the package's `space` table. -/
def isSpace (r : Char) : Bool :=
  let n := r.toNat
  decide (n < 0x10000) &&
    (decide (0x0009 ≤ n ∧ n ≤ 0x000d) || decide (n = 0x0020) || decide (n = 0x0085) ||
     decide (n = 0x00a0) || decide (n = 0x1680) || decide (0x2000 ≤ n ∧ n ≤ 0x200a) ||
     decide (0x2028 ≤ n ∧ n ≤ 0x2029) || decide (n = 0x202f) || decide (n = 0x205f) ||
     decide (n = 0x3000))

/-- Go `fmt`'s `hexadecimalDigits`, the runes the verbs `x` and `X` both
accept. -/
def hexadecimalDigits : List Char := "0123456789aAbBcCdDeEfF".toList

/-- Go `fmt`'s `hugeWid`, `1 << 30`. -/
def hugeWid : Nat := 2 ^ 30

/-- Go `fmt`'s scanner state `ss` over a string: the runes not yet read, the
number of runes consumed and the bound on it for the current operand. -/
structure ss where
  rs : List Char
  count : Nat := 0
  argLimit : Nat := hugeWid
  limit : Nat := hugeWid

/-- Go `(*ss).getRune`; `none` is `eof` (end of input, or the width of the
operand is used up). -/
def ss.getRune (s : ss) : Option (Char × ss) :=
  if s.count ≥ s.argLimit then none
  else
    match s.rs with
    | [] => none
    | r :: rest => some (r, { s with rs := rest, count := s.count + 1 })

/-- The loop of Go `(*ss).SkipSpace` with `nlIsSpace = false`, on the runes
not yet read and the count: a newline is an error, a carriage return before a
newline and every other space is skipped, the first other rune is unread. -/
def skipSpaceRunes (argLimit : Nat) : List Char → Nat → Except String (List Char × Nat)
  | [], count => .ok ([], count)
  | r :: rest, count =>
    if count ≥ argLimit then .ok (r :: rest, count)
    else if r = '\r' ∧ count + 1 < argLimit ∧ rest.head? = some '\n' then
      skipSpaceRunes argLimit rest (count + 1)
    else if r = '\n' then .error "unexpected newline"
    else if !isSpace r then .ok (r :: rest, count)
    else skipSpaceRunes argLimit rest (count + 1)

/-- Go `(*ss).SkipSpace`. -/
def ss.SkipSpace (s : ss) : Except String ss :=
  match skipSpaceRunes s.argLimit s.rs s.count with
  | .ok (rs, count) => .ok { s with rs := rs, count := count }
  | .error e => .error e

/-- The loop `for s.accept(digits) {}` of Go `(*ss).scanNumber`: runes of
`ok` are moved to the token buffer until another rune, the end of the input or
the width bound is met. -/
def acceptRunes (ok : List Char) (argLimit : Nat) :
    List Char → Nat → List Char → List Char × Nat × List Char
  | [], count, buf => ([], count, buf)
  | r :: rest, count, buf =>
    if count ≥ argLimit then (r :: rest, count, buf)
    else if ok.contains r then acceptRunes ok argLimit rest (count + 1) (buf ++ [r])
    else (r :: rest, count, buf)

/-- Go `(*ss).scanNumber(digits, false)`: `notEOF`, one rune of `digits`
(else "expected integer"), then as many more as the width allows. -/
def ss.scanNumber (s : ss) (digits : List Char) : Except String (List Char × ss) :=
  match s.getRune with
  | none => .error "EOF"
  | some (r, s1) =>
    if !digits.contains r then .error "expected integer"
    else
      match acceptRunes digits s1.argLimit s1.rs s1.count [r] with
      | (rs, count, buf) => .ok (buf, { s1 with rs := rs, count := count })

/-- Go `strconv`'s `lower(c)`, `c | ('x' - 'X')`. -/
def lower (c : Char) : Nat :=
  c.toNat ||| ('x'.toNat - 'X'.toNat)

/-- The digit value Go `strconv.ParseUint` gives a character, if any. -/
def digitValue (c : Char) : Option Nat :=
  if '0'.toNat ≤ c.toNat ∧ c.toNat ≤ '9'.toNat then some (c.toNat - '0'.toNat)
  else if 'a'.toNat ≤ lower c ∧ lower c ≤ 'z'.toNat then some (lower c - 'a'.toNat + 10)
  else none

/-- Go `strconv.ParseUint(tok, 16, 64)` on a token of ASCII characters. -/
def ParseUint16 (tok : List Char) : Except String Nat :=
  if tok = [] then .error "invalid syntax"
  else
    tok.foldlM (fun n c =>
      match digitValue c with
      | none => .error "invalid syntax"
      | some d =>
        if d ≥ 16 then .error "invalid syntax"
        else if n * 16 + d ≥ 2 ^ 64 then .error "value out of range"
        else .ok (n * 16 + d)) 0

/-- Go `(*ss).scanUint(verb, bitSize)` for the verbs `x` and `X`, which share
the base 16 and the digit set `hexadecimalDigits`. -/
def ss.scanUint (s : ss) (bitSize : Nat) : Except String (Nat × ss) := do
  let s ← s.SkipSpace
  if s.getRune.isNone then throw "EOF"
  let (tok, s) ← s.scanNumber hexadecimalDigits
  let i ← ParseUint16 tok
  if i % 2 ^ bitSize ≠ i then throw "unsigned integer overflow on token"
  pure (i, s)

/-- One item of a scan format: a literal rune, or the verb `%<maxWid>x`
(`upper = false`) or `%<maxWid>X` (`upper = true`) for a `*byte` operand. -/
inductive Directive where
  | lit (c : Char)
  | hex (maxWid : Nat) (upper : Bool)
  deriving DecidableEq, Repr

/-- What `fmt.Sscanf` returns and leaves behind: the number of operands
scanned, the error if any, and the values the `*byte` operands hold. -/
structure ScanResult where
  n : Nat
  err : Option String
  args : List Byte
  deriving DecidableEq, Repr

/-- Go `(*ss).doScanf` over the items of the format. A literal must equal the
next rune. A verb skips spaces, bounds the operand by its width, scans it into
the next operand and counts it. -/
def doScanf : List Directive → ss → Nat → List Byte → ScanResult
  | [], _, numProcessed, a =>
    if numProcessed < a.length then ⟨numProcessed, some "too many operands", a⟩
    else ⟨numProcessed, none, a⟩
  | .lit c :: format, s, numProcessed, a =>
    match s.getRune with
    | none => ⟨numProcessed, some "unexpected EOF", a⟩
    | some (r, s1) =>
      if r ≠ c then ⟨numProcessed, some "input does not match format", a⟩
      else doScanf format s1 numProcessed a
  | .hex maxWid _ :: format, s, numProcessed, a =>
    match s.SkipSpace with
    | .error e => ⟨numProcessed, some e, a⟩
    | .ok s1 =>
      let s2 := { s1 with argLimit := min s1.limit (s1.count + maxWid) }
      if numProcessed ≥ a.length then ⟨numProcessed, some "too few operands for format", a⟩
      else
        match s2.scanUint 8 with
        | .error e => ⟨numProcessed, some e, a⟩
        | .ok (v, s3) =>
          doScanf format { s3 with argLimit := s3.limit } (numProcessed + 1)
            (a.set numProcessed ⟨v % 256, Nat.mod_lt _ (by decide)⟩)

/-- Go `fmt.Sscanf(str, format, &a[0], &a[1], ...)`. -/
def Sscanf (str : List Char) (format : List Directive) (a : List Byte) : ScanResult :=
  doScanf format { rs := str } 0 a

/-- The format of line 96, with its two double quotes:
`"%02x:%02x:%02x:%02x:%02x:%02x"`. -/
def formatLower : List Directive :=
  [.lit '"', .hex 2 false, .lit ':', .hex 2 false, .lit ':', .hex 2 false, .lit ':',
   .hex 2 false, .lit ':', .hex 2 false, .lit ':', .hex 2 false, .lit '"']

/-- The format of line 101, with its two double quotes:
`"%02X:%02X:%02X:%02x:%02X:%02X"`; its fourth verb is lower-case in the
source. -/
def formatUpper : List Directive :=
  [.lit '"', .hex 2 true, .lit ':', .hex 2 true, .lit ':', .hex 2 true, .lit ':',
   .hex 2 false, .lit ':', .hex 2 true, .lit ':', .hex 2 true, .lit '"']

/-- The text of `%q` applied to the input, as far as it is modelled: the input
between double quotes, a quote or backslash of it behind a backslash. No
statement depends on this text. -/
def quoteText (b : List Char) : List Char :=
  '"' :: (b.flatMap (fun c => if c = '"' ∨ c = '\\' then ['\\', c] else [c]) ++ ['"'])

/-- Lines 92-114: `(v *MAC).UnmarshalJSON(b)`; returns the receiver after the
call and the error, `none` for `nil`. -/
def MAC.UnmarshalJSON (v : MAC) (b : List Char) : MAC × Option Error :=
  let m : List Byte := [0, 0, 0, 0, 0, 0]
  let r := Sscanf b formatLower m
  let r := if r.n ≠ 6 ∨ r.err ≠ none then Sscanf b formatUpper r.args else r
  if r.n ≠ 6 ∨ r.err ≠ none then
    (v, some ⟨.ErrorBadMAC,
      ": " ++ (quoteText b).asString ++ ": " ++ r.err.getD "<nil>"⟩)
  else
    ({ v with Value := fun i => r.args.getD i.val 0 }, none)

/-! ## The value of a `float32` expression

IEEE 754 binary32 with round to nearest, ties to even, one rounding for each
operation; `none` stands for a result that is not a finite number. -/

/-- Rounding of a rational to the nearest integer, ties to the even one. -/
def roundHalfEven (y : ℚ) : ℤ :=
  if y - ⌊y⌋ < 1 / 2 then ⌊y⌋
  else if 1 / 2 < y - ⌊y⌋ then ⌊y⌋ + 1
  else if ⌊y⌋ % 2 = 0 then ⌊y⌋
  else ⌊y⌋ + 1

/-- Rounding of a rational to binary32: with `2^e ≤ |x| < 2^(e+1)` the
representable numbers are the multiples of `2^(e-23)` (24 bits of precision),
of `2^(-149)` below the least normal exponent -126; a result of magnitude
`2^128` or more is not finite. -/
def round32 (x : ℚ) : Option ℚ :=
  if x = 0 then some 0
  else
    let e : ℤ := max (Int.log 2 |x|) (-126)
    let q : ℚ := 2 ^ (e - 23)
    let v : ℚ := roundHalfEven (x / q) * q
    if 2 ^ 128 ≤ |v| then none else some v

/-- The `float32` value of an expression, every conversion and operation
rounded to binary32. -/
def F32.eval : F32 → Option ℚ
  | .zero => some 0
  | .ofInt i => round32 i
  | .const m e => round32 ((m : ℚ) / 10 ^ e)
  | .mul a b =>
    match a.eval, b.eval with
    | some x, some y => round32 (x * y)
    | _, _ => none
  | .div a b =>
    match a.eval, b.eval with
    | some x, some y => if y = 0 then none else round32 (x / y)
    | _, _ => none
  | .add a b =>
    match a.eval, b.eval with
    | some x, some y => round32 (x + y)
    | _, _ => none

/-! ## Specification vocabulary and test vectors -/

/-- The claims' `BE16(h, l) = 256*h + l`, the big-endian value of two bytes. -/
def BE16 (h l : Byte) : U16 :=
  ⟨256 * h.val + l.val, by omega⟩

/-- `VECTOR_GOOD` of `rawv2_test.go`. -/
def VECTOR_GOOD : List Byte :=
  [0x05, 0x12, 0xFC, 0x53, 0x94, 0xC3, 0x7C, 0x00, 0x04, 0xFF, 0xFC, 0x04,
   0x0C, 0xAC, 0x36, 0x42, 0x00, 0xCD, 0xCB, 0xB8, 0x33, 0x4C, 0x88, 0x4F]

/-- `VECTOR_GOOD_CUT` of `rawv2cut_test.go`. -/
def VECTOR_GOOD_CUT : List Byte :=
  [0xC5, 0x12, 0xFC, 0x53, 0x94, 0xC3, 0x7C, 0xAC, 0x36, 0x42, 0x00, 0xCD,
   0xCB, 0xB8, 0x33, 0x4C, 0x88, 0x4F]

/-- `VECTOR_BAD_CUT` of `rawv2cut_test.go`: every field holds its sentinel. -/
def VECTOR_BAD_CUT : List Byte :=
  [0xC5, 0x80, 0x00, 0xFF, 0xFF, 0xFF, 0xFF, 0xFF, 0xFF, 0xFF, 0xFF, 0xFF,
   0xFF, 0xFF, 0xFF, 0xFF, 0xFF, 0xFF]

/-- The two characters `%02x` / `%02X` write for a byte: the digit of its high
nibble, then the digit of its low nibble. -/
def hexPair (digits : List Char) (b : Byte) : List Char :=
  [digits.getD (b.val / 16) '0', digits.getD (b.val % 16) '0']

/-- What the scanner and the encoder need to know of a character `c` that is
the hexadecimal digit of value `n`. -/
def IsHexDigitOf (c : Char) (n : Nat) : Prop :=
  c ≠ '\r' ∧ c ≠ '\n' ∧ c ≠ '"' ∧ c ≠ ':' ∧ isSpace c = false ∧
    hexadecimalDigits.contains c = true ∧ digitValue c = some n ∧ jsonEscape c = [c]

instance (c : Char) (n : Nat) : Decidable (IsHexDigitOf c n) := by
  unfold IsHexDigitOf
  infer_instance

/-- The digit table of a case choice: `udigits` for upper-case, `ldigits` for
lower-case. -/
def digitTable (upper : Bool) : List Char :=
  if upper then udigits else ldigits

/-- The quoted colon-hex rendering of an address, the case of each byte pair
chosen by `upper`: a double quote, six pairs of hexadecimal digits separated
by colons, a double quote. -/
def macText (upper : Fin 6 → Bool) (a : MAC) : List Char :=
  '"' :: (hexPair (digitTable (upper 0)) (a.Value 0) ++ ':' ::
    (hexPair (digitTable (upper 1)) (a.Value 1) ++ ':' ::
    (hexPair (digitTable (upper 2)) (a.Value 2) ++ ':' ::
    (hexPair (digitTable (upper 3)) (a.Value 3) ++ ':' ::
    (hexPair (digitTable (upper 4)) (a.Value 4) ++ ':' ::
    (hexPair (digitTable (upper 5)) (a.Value 5) ++ ['"']))))))

/-- The upper-case rendering of an address, `MAC.String` with the verb `%02X`
in place of `%02x`. -/
def upperString (v : MAC) : List Char :=
  fmtHex udigits 2 (v.Value 0).val ++ [':'] ++ fmtHex udigits 2 (v.Value 1).val ++ [':'] ++
  fmtHex udigits 2 (v.Value 2).val ++ [':'] ++ fmtHex udigits 2 (v.Value 3).val ++ [':'] ++
  fmtHex udigits 2 (v.Value 4).val ++ [':'] ++ fmtHex udigits 2 (v.Value 5).val

/-- The two scans of `UnmarshalJSON` both fail on `b`. -/
def BothScansFail (b : List Char) : Prop :=
  ((Sscanf b formatLower [0, 0, 0, 0, 0, 0]).n ≠ 6 ∨
      (Sscanf b formatLower [0, 0, 0, 0, 0, 0]).err ≠ none) ∧
    ((Sscanf b formatUpper (Sscanf b formatLower [0, 0, 0, 0, 0, 0]).args).n ≠ 6 ∨
      (Sscanf b formatUpper (Sscanf b formatLower [0, 0, 0, 0, 0, 0]).args).err ≠ none)

instance (b : List Char) : Decidable (BothScansFail b) := by
  unfold BothScansFail
  infer_instance

/-- `VECTOR_BAD` of `rawv2_test.go`: every field of the full layout holds its
sentinel. -/
def VECTOR_BAD : List Byte :=
  [0x05, 0x80, 0x00, 0xFF, 0xFF, 0xFF, 0xFF, 0x80, 0x00, 0x80, 0x00, 0x80,
   0x00, 0xFF, 0xFF, 0xFF, 0xFF, 0xFF, 0xFF, 0xFF, 0xFF, 0xFF, 0xFF, 0xFF]

/-- The reading the full layout gives for 24 bytes (tag `0x05`) and a
timestamp. -/
def plainReading {τ : Type} (t : τ)
    (b1 b2 b3 b4 b5 b6 b7 b8 b9 b10 b11 b12 b13 b14 b15 b16 b17 b18 b19 b20 b21 b22 b23 : Byte) :
    RuuviRawV2 τ where
  Type_ := 0x05
  Timestamp := t
  Temperature := newTemperature (BE16 b1 b2)
  Humidity := newHumidity (BE16 b3 b4)
  Pressure := newPressure (BE16 b5 b6)
  AccelerationX := newAcceleration (BE16 b7 b8)
  AccelerationY := newAcceleration (BE16 b9 b10)
  AccelerationZ := newAcceleration (BE16 b11 b12)
  BatteryVoltage := newBatteryVoltage (BE16 b13 b14)
  TransmitPower := newTransmitPower (BE16 b13 b14)
  MovementCounter := newMovementCounter b15
  SequenceNumber := newSequenceNumber (BE16 b16 b17)
  MAC := newMAC [b18, b19, b20, b21, b22, b23]

/-- The reading the cut layout gives for 18 bytes (tag `0xC5`) and a
timestamp. -/
def cutReading {τ : Type} (t : τ)
    (b1 b2 b3 b4 b5 b6 b7 b8 b9 b10 b11 b12 b13 b14 b15 b16 b17 : Byte) : RuuviRawV2 τ where
  Type_ := 0xC5
  Timestamp := t
  Temperature := newTemperature (BE16 b1 b2)
  Humidity := newHumidity (BE16 b3 b4)
  Pressure := newPressure (BE16 b5 b6)
  BatteryVoltage := newBatteryVoltage (BE16 b7 b8)
  TransmitPower := newTransmitPower (BE16 b7 b8)
  MovementCounter := newMovementCounter b9
  SequenceNumber := newSequenceNumber (BE16 b10 b11)
  MAC := newMAC [b12, b13, b14, b15, b16, b17]

/-! ## Auxiliary lemmas -/

/-- The source's `Uint16` on a slice of at least two bytes is `BE16` of the
first two. -/
theorem Uint16_cons_cons (h l : Byte) (rest : List Byte) :
    Uint16 (h :: l :: rest) = .ok (BE16 h l) := by
  have e : (l.val ||| ((h.val <<< 8) % 65536)) % 65536 = 256 * h.val + l.val := by
    have h1 : h.val <<< 8 = 2 ^ 8 * h.val := by rw [Nat.shiftLeft_eq, Nat.mul_comm]
    have h2 : 2 ^ 8 * h.val % 65536 = 2 ^ 8 * h.val := Nat.mod_eq_of_lt (by omega)
    rw [h1, h2, Nat.lor_comm, ← Nat.mul_add_lt_is_or (by omega : l.val < 2 ^ 8)]
    exact Nat.mod_eq_of_lt (by omega)
  simp only [Uint16, BE16]
  congr 1
  exact Fin.ext e

theorem ParseWithTime_nil {τ : Type} (t : τ) : ParseWithTime [] t = .panic := by
  simp [ParseWithTime, index, bind, Outcome.bind]

theorem ParseWithTime_cons_other {τ : Type} (b : Byte) (rest : List Byte) (t : τ)
    (h5 : b.val ≠ 0x05) (hC5 : b.val ≠ 0xC5) :
    ParseWithTime (b :: rest) t = .error ⟨.ErrorPacketNotV2, ": " ++ toString b.val⟩ := by
  simp [ParseWithTime, index, bind, Outcome.bind, VERSION_PLAIN, VERSION_CUT, h5, hC5]

theorem ParseWithTime_cons_plain {τ : Type} (b : Byte) (rest : List Byte) (t : τ)
    (h5 : b.val = 0x05) :
    ParseWithTime (b :: rest) t =
      if (b :: rest).length < 24 then
        .error ⟨.ErrorPacketTooSmall, ": " ++ toString (b :: rest).length ++ " octets"⟩
      else decodeFields (b :: rest) t := by
  simp [ParseWithTime, index, bind, Outcome.bind, VERSION_PLAIN, VERSION_CUT, h5, pure]

theorem ParseWithTime_cons_cut {τ : Type} (b : Byte) (rest : List Byte) (t : τ)
    (hC5 : b.val = 0xC5) :
    ParseWithTime (b :: rest) t =
      if (b :: rest).length < 18 then
        .error ⟨.ErrorPacketTooSmall, ": " ++ toString (b :: rest).length ++ " octets"⟩
      else decodeFields (b :: rest) t := by
  simp [ParseWithTime, index, bind, Outcome.bind, VERSION_PLAIN, VERSION_CUT, hC5, pure]

/-- A buffer of at least 18 bytes, written out. -/
theorem shape18 (d : List Byte) (h : 18 ≤ d.length) :
    ∃ b0 b1 b2 b3 b4 b5 b6 b7 b8 b9 b10 b11 b12 b13 b14 b15 b16 b17 rest,
      d = b0 :: b1 :: b2 :: b3 :: b4 :: b5 :: b6 :: b7 :: b8 :: b9 :: b10 :: b11 :: b12 ::
        b13 :: b14 :: b15 :: b16 :: b17 :: rest := by
  iterate 18
    rcases d with _ | ⟨b, d⟩
    · simp only [List.length_cons, List.length_nil] at h; omega
  exact ⟨_, _, _, _, _, _, _, _, _, _, _, _, _, _, _, _, _, _, _, rfl⟩

/-- A buffer of at least 24 bytes, written out. -/
theorem shape24 (d : List Byte) (h : 24 ≤ d.length) :
    ∃ b0 b1 b2 b3 b4 b5 b6 b7 b8 b9 b10 b11 b12 b13 b14 b15 b16 b17 b18 b19 b20 b21 b22 b23 rest,
      d = b0 :: b1 :: b2 :: b3 :: b4 :: b5 :: b6 :: b7 :: b8 :: b9 :: b10 :: b11 :: b12 ::
        b13 :: b14 :: b15 :: b16 :: b17 :: b18 :: b19 :: b20 :: b21 :: b22 :: b23 :: rest := by
  iterate 24
    rcases d with _ | ⟨b, d⟩
    · simp only [List.length_cons, List.length_nil] at h; omega
  exact ⟨_, _, _, _, _, _, _, _, _, _, _, _, _, _, _, _, _, _, _, _, _, _, _, _, _, rfl⟩

/-- The field extraction on a buffer of at least 18 bytes whose tag is not
`0x05`: the cut layout. -/
theorem decodeFields_cut {τ : Type}
    (b0 b1 b2 b3 b4 b5 b6 b7 b8 b9 b10 b11 b12 b13 b14 b15 b16 b17 : Byte)
    (rest : List Byte) (t : τ) (h0 : b0.val ≠ 0x05) :
    decodeFields (b0 :: b1 :: b2 :: b3 :: b4 :: b5 :: b6 :: b7 :: b8 :: b9 :: b10 :: b11 :: b12 ::
        b13 :: b14 :: b15 :: b16 :: b17 :: rest) t = .ok {
      Type_ := b0.val
      Timestamp := t
      Temperature := newTemperature (BE16 b1 b2)
      Humidity := newHumidity (BE16 b3 b4)
      Pressure := newPressure (BE16 b5 b6)
      BatteryVoltage := newBatteryVoltage (BE16 b7 b8)
      TransmitPower := newTransmitPower (BE16 b7 b8)
      MovementCounter := newMovementCounter b9
      SequenceNumber := newSequenceNumber (BE16 b10 b11)
      MAC := newMAC [b12, b13, b14, b15, b16, b17] } := by
  have hm : b0.val % 256 = b0.val := Nat.mod_eq_of_lt b0.isLt
  simp [decodeFields, index, sliceFrom, slice, Uint16_cons_cons, bind, Outcome.bind, pure,
    VERSION_PLAIN, h0, hm]

/-- The field extraction on a buffer of at least 24 bytes whose tag is
`0x05`: the full layout. -/
theorem decodeFields_plain {τ : Type}
    (b0 b1 b2 b3 b4 b5 b6 b7 b8 b9 b10 b11 b12 b13 b14 b15 b16 b17 b18 b19 b20 b21 b22 b23 : Byte)
    (rest : List Byte) (t : τ) (h0 : b0.val = 0x05) :
    decodeFields (b0 :: b1 :: b2 :: b3 :: b4 :: b5 :: b6 :: b7 :: b8 :: b9 :: b10 :: b11 :: b12 ::
        b13 :: b14 :: b15 :: b16 :: b17 :: b18 :: b19 :: b20 :: b21 :: b22 :: b23 :: rest) t = .ok {
      Type_ := 0x05
      Timestamp := t
      Temperature := newTemperature (BE16 b1 b2)
      Humidity := newHumidity (BE16 b3 b4)
      Pressure := newPressure (BE16 b5 b6)
      AccelerationX := newAcceleration (BE16 b7 b8)
      AccelerationY := newAcceleration (BE16 b9 b10)
      AccelerationZ := newAcceleration (BE16 b11 b12)
      BatteryVoltage := newBatteryVoltage (BE16 b13 b14)
      TransmitPower := newTransmitPower (BE16 b13 b14)
      MovementCounter := newMovementCounter b15
      SequenceNumber := newSequenceNumber (BE16 b16 b17)
      MAC := newMAC [b18, b19, b20, b21, b22, b23] } := by
  simp [decodeFields, index, sliceFrom, slice, Uint16_cons_cons, bind, Outcome.bind, pure,
    VERSION_PLAIN, h0]

/-- With tag `0x05` the field extraction panics on every buffer shorter than
24 bytes. -/
theorem decodeFields_plain_short {τ : Type} (d : List Byte) (t : τ) (h0 : d[0]? = some 0x05)
    (hlen : d.length < 24) : decodeFields d t = .panic := by
  iterate 24
    rcases d with _ | ⟨b, d⟩
    · simp_all [decodeFields, index, sliceFrom, slice, Uint16, bind, Outcome.bind, pure,
        VERSION_PLAIN] <;> decide
  simp only [List.length_cons] at hlen; omega

/-- With any other tag the field extraction panics on every buffer shorter
than 18 bytes. -/
theorem decodeFields_cut_short {τ : Type} (d : List Byte) (t : τ) (h0 : d[0]? ≠ some 0x05)
    (hlen : d.length < 18) : decodeFields d t = .panic := by
  iterate 18
    rcases d with _ | ⟨b, d⟩
    · simp_all [decodeFields, index, sliceFrom, slice, Uint16, bind, Outcome.bind, pure,
        VERSION_PLAIN]
  simp only [List.length_cons] at hlen; omega

/-- With tag `0x05` and at least 24 bytes the field extraction returns a
reading. -/
theorem decodeFields_plain_ok {τ : Type} (d : List Byte) (t : τ) (h0 : d[0]? = some 0x05)
    (hlen : 24 ≤ d.length) : ∃ r, decodeFields d t = .ok r := by
  obtain ⟨b0, b1, b2, b3, b4, b5, b6, b7, b8, b9, b10, b11, b12, b13, b14, b15, b16, b17,
    b18, b19, b20, b21, b22, b23, rest, rfl⟩ := shape24 d hlen
  have hb : b0 = 0x05 := by simpa using h0
  exact ⟨_, decodeFields_plain b0 b1 b2 b3 b4 b5 b6 b7 b8 b9 b10 b11 b12 b13 b14 b15 b16 b17
    b18 b19 b20 b21 b22 b23 rest t (by rw [hb]; rfl)⟩

/-- With any other tag and at least 18 bytes the field extraction returns a
reading. -/
theorem decodeFields_cut_ok {τ : Type} (d : List Byte) (t : τ) (h0 : d[0]? ≠ some 0x05)
    (hlen : 18 ≤ d.length) : ∃ r, decodeFields d t = .ok r := by
  obtain ⟨b0, b1, b2, b3, b4, b5, b6, b7, b8, b9, b10, b11, b12, b13, b14, b15, b16, b17,
    rest, rfl⟩ := shape18 d hlen
  have hb : b0.val ≠ 0x05 := by
    intro hv
    apply h0
    have : b0 = 0x05 := Fin.ext hv
    simp [this]
  exact ⟨_, decodeFields_cut b0 b1 b2 b3 b4 b5 b6 b7 b8 b9 b10 b11 b12 b13 b14 b15 b16 b17
    rest t hb⟩

theorem head_eq_of_val {b : Byte} {rest : List Byte} {n : Byte} (h : b.val = n.val) :
    (b :: rest)[0]? = some n := by
  have : b = n := Fin.ext h
  simp [this]

theorem head_ne_of_val {b : Byte} {rest : List Byte} {n : Byte} (h : b.val ≠ n.val) :
    (b :: rest)[0]? ≠ some n := by
  intro hh
  apply h
  have : b = n := by simpa using hh
  rw [this]

/-! ## Claims -/

/-- C1: on a non-empty buffer whose first byte `b` is neither `0x05` nor
`0xC5`, `ParseWithTime` returns an error derived from `ErrorPacketNotV2`
whatever the length of the buffer is, and that error is not derived from
`ErrorPacketTooSmall`; conversely, when `b` is `0x05` or `0xC5` no error that
`ParseWithTime` returns is derived from `ErrorPacketNotV2`. -/
theorem C1_unsupported_tag_is_reported_whatever_the_length {τ : Type}
    (b : Byte) (rest : List Byte) (t : τ) :
    (b.val ≠ 0x05 ∧ b.val ≠ 0xC5 →
      ∃ e, ParseWithTime (b :: rest) t = .error e ∧
        errorsIs e .ErrorPacketNotV2 = true ∧ errorsIs e .ErrorPacketTooSmall = false) ∧
    (b.val = 0x05 ∨ b.val = 0xC5 →
      ∀ e, ParseWithTime (b :: rest) t = .error e → errorsIs e .ErrorPacketNotV2 = false) := by
  refine ⟨fun h => ?_, fun h e he => ?_⟩
  · exact ⟨_, ParseWithTime_cons_other b rest t h.1 h.2, rfl, rfl⟩
  · rcases h with h | h
    · rw [ParseWithTime_cons_plain b rest t h] at he
      split at he
      · cases he; rfl
      · rename_i hl
        obtain ⟨r, hr⟩ := decodeFields_plain_ok (b :: rest) t (head_eq_of_val h) (by omega)
        rw [hr] at he
        cases he
    · rw [ParseWithTime_cons_cut b rest t h] at he
      split at he
      · cases he; rfl
      · rename_i hl
        obtain ⟨r, hr⟩ := decodeFields_cut_ok (b :: rest) t
          (head_ne_of_val (by rw [h]; decide)) (by omega)
        rw [hr] at he
        cases he

/-- C1, at concrete inputs: the one-byte buffer `[0x03]` is reported as
`ErrorPacketNotV2`, and the 23-byte truncation of `VECTOR_GOOD` is not. -/
theorem C1_unsupported_tag_witness :
    (∃ e, ParseWithTime ([0x03] : List Byte) (0 : Nat) = .error e ∧
        errorsIs e .ErrorPacketNotV2 = true ∧ errorsIs e .ErrorPacketTooSmall = false) ∧
    (∀ e, ParseWithTime (0x05 :: (VECTOR_GOOD.take 23).tail) (0 : Nat) = .error e →
        errorsIs e .ErrorPacketNotV2 = false) :=
  ⟨(C1_unsupported_tag_is_reported_whatever_the_length 0x03 [] 0).1 ⟨by decide, by decide⟩,
   (C1_unsupported_tag_is_reported_whatever_the_length 0x05 (VECTOR_GOOD.take 23).tail 0).2
     (Or.inl (by decide))⟩

/-- C2: on a non-empty buffer whose first byte is `0x05`, `ParseWithTime`
returns an error derived from `ErrorPacketTooSmall` exactly when the buffer
has fewer than 24 bytes; with first byte `0xC5`, exactly when it has fewer
than 18 bytes. A buffer of 23 (17) bytes fails so, and a buffer of exactly 24
(18) bytes is decoded to a reading. -/
theorem C2_too_small_iff_below_minimum {τ : Type} (b : Byte) (rest : List Byte) (t : τ) :
    (b.val = 0x05 →
      ((∃ e, ParseWithTime (b :: rest) t = .error e ∧ errorsIs e .ErrorPacketTooSmall = true)
          ↔ (b :: rest).length < 24) ∧
      ((b :: rest).length = 23 →
        ∃ e, ParseWithTime (b :: rest) t = .error e ∧ errorsIs e .ErrorPacketTooSmall = true) ∧
      ((b :: rest).length = 24 → ∃ r, ParseWithTime (b :: rest) t = .ok r)) ∧
    (b.val = 0xC5 →
      ((∃ e, ParseWithTime (b :: rest) t = .error e ∧ errorsIs e .ErrorPacketTooSmall = true)
          ↔ (b :: rest).length < 18) ∧
      ((b :: rest).length = 17 →
        ∃ e, ParseWithTime (b :: rest) t = .error e ∧ errorsIs e .ErrorPacketTooSmall = true) ∧
      ((b :: rest).length = 18 → ∃ r, ParseWithTime (b :: rest) t = .ok r)) := by
  constructor
  · intro h
    have hp := ParseWithTime_cons_plain b rest t h
    have key : (∃ e, ParseWithTime (b :: rest) t = .error e ∧
        errorsIs e .ErrorPacketTooSmall = true) ↔ (b :: rest).length < 24 := by
      constructor
      · rintro ⟨e, he, -⟩
        by_contra hl
        rw [hp, if_neg hl] at he
        obtain ⟨r, hr⟩ := decodeFields_plain_ok (b :: rest) t (head_eq_of_val h) (by omega)
        rw [hr] at he
        cases he
      · intro hl
        rw [hp, if_pos hl]
        exact ⟨_, rfl, rfl⟩
    refine ⟨key, fun hl => key.2 (by omega), fun hl => ?_⟩
    rw [hp, if_neg (by omega)]
    exact decodeFields_plain_ok (b :: rest) t (head_eq_of_val h) (by omega)
  · intro h
    have hp := ParseWithTime_cons_cut b rest t h
    have hne : (b :: rest)[0]? ≠ some 0x05 := head_ne_of_val (by rw [h]; decide)
    have key : (∃ e, ParseWithTime (b :: rest) t = .error e ∧
        errorsIs e .ErrorPacketTooSmall = true) ↔ (b :: rest).length < 18 := by
      constructor
      · rintro ⟨e, he, -⟩
        by_contra hl
        rw [hp, if_neg hl] at he
        obtain ⟨r, hr⟩ := decodeFields_cut_ok (b :: rest) t hne (by omega)
        rw [hr] at he
        cases he
      · intro hl
        rw [hp, if_pos hl]
        exact ⟨_, rfl, rfl⟩
    refine ⟨key, fun hl => key.2 (by omega), fun hl => ?_⟩
    rw [hp, if_neg (by omega)]
    exact decodeFields_cut_ok (b :: rest) t hne (by omega)

/-- C2, at the test vector: `VECTOR_GOOD` without its last byte (23 bytes) is
too small, `VECTOR_GOOD` itself (24 bytes) is decoded. -/
theorem C2_too_small_witness :
    (∃ e, ParseWithTime (0x05 :: (VECTOR_GOOD.take 23).tail) (0 : Nat) = .error e ∧
        errorsIs e .ErrorPacketTooSmall = true) ∧
    (∃ r, ParseWithTime (0x05 :: VECTOR_GOOD.tail) (0 : Nat) = .ok r) :=
  ⟨((C2_too_small_iff_below_minimum 0x05 (VECTOR_GOOD.take 23).tail 0).1 (by decide)).2.1
      (by decide),
   ((C2_too_small_iff_below_minimum 0x05 VECTOR_GOOD.tail 0).1 (by decide)).2.2 (by decide)⟩

/-- C3: once the tag and length checks have passed (tag `0x05` with at least
24 bytes, or tag `0xC5` with at least 18), the field extraction of lines
159-185 returns a reading, and so does `ParseWithTime`: no index or slice bound
is out of range. The extraction never returns an error, and it panics exactly
on a buffer shorter than 24 (18) bytes: it reads up to index 23 (17) and no
further. -/
theorem C3_no_failure_after_the_length_check {τ : Type} (d : List Byte) (t : τ) :
    ((d[0]? = some 0x05 ∧ 24 ≤ d.length) ∨ (d[0]? = some 0xC5 ∧ 18 ≤ d.length) →
      ∃ r, decodeFields d t = .ok r ∧ ParseWithTime d t = .ok r) ∧
    (d[0]? = some 0x05 → (decodeFields d t = .panic ↔ d.length < 24)) ∧
    (d[0]? = some 0xC5 → (decodeFields d t = .panic ↔ d.length < 18)) ∧
    (∀ e, decodeFields d t ≠ .error e) := by
  have hC : d[0]? = some 0xC5 → d[0]? ≠ some 0x05 := by
    intro h
    rw [h]
    decide
  have plain_iff : d[0]? = some 0x05 → (decodeFields d t = .panic ↔ d.length < 24) := by
    intro h0
    constructor
    · intro hp
      by_contra hl
      obtain ⟨r, hr⟩ := decodeFields_plain_ok d t h0 (by omega)
      rw [hr] at hp
      cases hp
    · exact decodeFields_plain_short d t h0
  have cut_iff : d[0]? ≠ some 0x05 → (decodeFields d t = .panic ↔ d.length < 18) := by
    intro h0
    constructor
    · intro hp
      by_contra hl
      obtain ⟨r, hr⟩ := decodeFields_cut_ok d t h0 (by omega)
      rw [hr] at hp
      cases hp
    · exact decodeFields_cut_short d t h0
  refine ⟨?_, plain_iff, fun h => cut_iff (hC h), ?_⟩
  · rintro (⟨h0, hl⟩ | ⟨h0, hl⟩)
    · obtain ⟨r, hr⟩ := decodeFields_plain_ok d t h0 hl
      refine ⟨r, hr, ?_⟩
      rcases d with _ | ⟨b, rest⟩
      · simp at h0
      · have hb : b = 0x05 := by simpa using h0
        rw [ParseWithTime_cons_plain b rest t (by rw [hb]; rfl), if_neg (by omega), hr]
    · obtain ⟨r, hr⟩ := decodeFields_cut_ok d t (hC h0) hl
      refine ⟨r, hr, ?_⟩
      rcases d with _ | ⟨b, rest⟩
      · simp at h0
      · have hb : b = 0xC5 := by simpa using h0
        rw [ParseWithTime_cons_cut b rest t (by rw [hb]; rfl), if_neg (by omega), hr]
  · intro e he
    by_cases h0 : d[0]? = some 0x05
    · by_cases hl : d.length < 24
      · rw [decodeFields_plain_short d t h0 hl] at he
        cases he
      · obtain ⟨r, hr⟩ := decodeFields_plain_ok d t h0 (by omega)
        rw [hr] at he
        cases he
    · by_cases hl : d.length < 18
      · rw [decodeFields_cut_short d t h0 hl] at he
        cases he
      · obtain ⟨r, hr⟩ := decodeFields_cut_ok d t h0 (by omega)
        rw [hr] at he
        cases he

/-- C3, at the test vectors: `VECTOR_GOOD` (exactly 24 bytes) and
`VECTOR_GOOD_CUT` (exactly 18 bytes) are decoded, and the extraction does not
panic on them. -/
theorem C3_no_failure_witness :
    (∃ r, decodeFields VECTOR_GOOD (0 : Nat) = .ok r ∧ ParseWithTime VECTOR_GOOD 0 = .ok r) ∧
    (∃ r, decodeFields VECTOR_GOOD_CUT (0 : Nat) = .ok r ∧
      ParseWithTime VECTOR_GOOD_CUT 0 = .ok r) ∧
    ¬ decodeFields VECTOR_GOOD (0 : Nat) = .panic :=
  ⟨(C3_no_failure_after_the_length_check VECTOR_GOOD 0).1 (Or.inl ⟨by decide, by decide⟩),
   (C3_no_failure_after_the_length_check VECTOR_GOOD_CUT 0).1 (Or.inr ⟨by decide, by decide⟩),
   fun h => absurd (((C3_no_failure_after_the_length_check VECTOR_GOOD 0).2.1 (by decide)).1 h)
     (by decide)⟩

/-- C4, the part the code keeps: on every non-empty buffer `ParseWithTime`
(and `Parse`) returns a reading or an error derived from `ErrorPacketTooSmall`
or `ErrorPacketNotV2`. The part it breaks: on the empty buffer the read of
byte 0 is out of range and the call panics. -/
theorem C4_empty_buffer_panics {τ : Type} (t : τ) :
    ParseWithTime ([] : List Byte) t = .panic ∧ Parse t ([] : List Byte) = .panic ∧
    (∀ d : List Byte, d ≠ [] →
      (∃ r, ParseWithTime d t = .ok r ∧ Parse t d = .ok r) ∨
      (∃ e, ParseWithTime d t = .error e ∧ Parse t d = .error e ∧
        (errorsIs e .ErrorPacketTooSmall = true ∨ errorsIs e .ErrorPacketNotV2 = true))) := by
  refine ⟨ParseWithTime_nil t, ParseWithTime_nil t, fun d hd => ?_⟩
  rcases d with _ | ⟨b, rest⟩
  · exact absurd rfl hd
  · by_cases h5 : b.val = 0x05
    · by_cases hl : (b :: rest).length < 24
      · right
        refine ⟨⟨.ErrorPacketTooSmall, ": " ++ toString (b :: rest).length ++ " octets"⟩,
          ?_, ?_, Or.inl ?_⟩
        · rw [ParseWithTime_cons_plain b rest t h5, if_pos hl]
        · rw [Parse, ParseWithTime_cons_plain b rest t h5, if_pos hl]
        · rfl
      · left
        obtain ⟨r, hr⟩ := decodeFields_plain_ok (b :: rest) t (head_eq_of_val h5) (by omega)
        exact ⟨r, by rw [ParseWithTime_cons_plain b rest t h5, if_neg hl, hr],
          by rw [Parse, ParseWithTime_cons_plain b rest t h5, if_neg hl, hr]⟩
    · by_cases hC5 : b.val = 0xC5
      · by_cases hl : (b :: rest).length < 18
        · right
          refine ⟨⟨.ErrorPacketTooSmall, ": " ++ toString (b :: rest).length ++ " octets"⟩,
          ?_, ?_, Or.inl ?_⟩
          · rw [ParseWithTime_cons_cut b rest t hC5, if_pos hl]
          · rw [Parse, ParseWithTime_cons_cut b rest t hC5, if_pos hl]
          · rfl
        · left
          obtain ⟨r, hr⟩ := decodeFields_cut_ok (b :: rest) t (head_ne_of_val h5) (by omega)
          exact ⟨r, by rw [ParseWithTime_cons_cut b rest t hC5, if_neg hl, hr],
            by rw [Parse, ParseWithTime_cons_cut b rest t hC5, if_neg hl, hr]⟩
      · right
        exact ⟨_, ParseWithTime_cons_other b rest t h5 hC5,
          ParseWithTime_cons_other b rest t h5 hC5, Or.inr rfl⟩

/-- C5: a buffer `d` with `d[0] = 0x05` and at least 24 bytes is decoded, for
every timestamp `t`, to the reading with `Type = 0x05`, `Timestamp = t`,
temperature, humidity and pressure from the big-endian pairs at bytes 1-2, 3-4
and 5-6, the three accelerations from the pairs at bytes 7-8, 9-10 and 11-12
(each value the two's-complement reading of the pair), battery voltage and
transmit power both from the pair at bytes 13-14, the movement counter from
byte 15, the sequence number from the pair at bytes 16-17, and the MAC equal
to bytes 18 to 23 in order; `BE16 h l` is `256*h + l`. -/
theorem C5_full_layout_field_table {τ : Type} (d : List Byte) (t : τ)
    (hlen : 24 ≤ d.length) (htag : d[0] = 0x05) :
    ∃ r, ParseWithTime d t = .ok r ∧
      r.Type_ = 0x05 ∧ r.Timestamp = t ∧
      r.Temperature = newTemperature (BE16 d[1] d[2]) ∧
      r.Humidity = newHumidity (BE16 d[3] d[4]) ∧
      r.Pressure = newPressure (BE16 d[5] d[6]) ∧
      r.AccelerationX = newAcceleration (BE16 d[7] d[8]) ∧
      r.AccelerationY = newAcceleration (BE16 d[9] d[10]) ∧
      r.AccelerationZ = newAcceleration (BE16 d[11] d[12]) ∧
      r.AccelerationX.Value = int16 (256 * d[7].val + d[8].val) ∧
      r.AccelerationY.Value = int16 (256 * d[9].val + d[10].val) ∧
      r.AccelerationZ.Value = int16 (256 * d[11].val + d[12].val) ∧
      r.BatteryVoltage = newBatteryVoltage (BE16 d[13] d[14]) ∧
      r.TransmitPower = newTransmitPower (BE16 d[13] d[14]) ∧
      r.MovementCounter = newMovementCounter d[15] ∧
      r.SequenceNumber = newSequenceNumber (BE16 d[16] d[17]) ∧
      r.MAC.Value 0 = d[18] ∧ r.MAC.Value 1 = d[19] ∧ r.MAC.Value 2 = d[20] ∧
      r.MAC.Value 3 = d[21] ∧ r.MAC.Value 4 = d[22] ∧ r.MAC.Value 5 = d[23] ∧
      (∀ h l : Byte, (BE16 h l).val = 256 * h.val + l.val) ∧
      (∀ raw : Nat, raw < 65536 →
        int16 raw = if raw < 32768 then (raw : Int) else (raw : Int) - 65536) := by
  obtain ⟨b0, b1, b2, b3, b4, b5, b6, b7, b8, b9, b10, b11, b12, b13, b14, b15, b16, b17,
    b18, b19, b20, b21, b22, b23, rest, rfl⟩ := shape24 d hlen
  have hb : b0.val = 0x05 := by
    have : b0 = 0x05 := by simpa using htag
    rw [this]; rfl
  have hr := (ParseWithTime_cons_plain b0 _ t hb).trans
    ((if_neg (by simp only [List.length_cons]; omega)).trans
      (decodeFields_plain b0 b1 b2 b3 b4 b5 b6 b7 b8 b9 b10 b11 b12 b13 b14 b15 b16 b17
        b18 b19 b20 b21 b22 b23 rest t hb))
  refine ⟨_, hr, rfl, rfl, rfl, rfl, rfl, rfl, rfl, rfl, rfl, rfl, rfl, rfl, rfl, rfl, rfl,
      rfl, rfl, rfl, rfl, rfl, rfl, fun _ _ => rfl, fun raw hraw => ?_⟩
  simp only [int16, Nat.mod_eq_of_lt hraw]

/-- C5, at `VECTOR_GOOD`: the values `TestBasic` expects. -/
theorem C5_full_layout_witness :
    ∃ r, ParseWithTime VECTOR_GOOD (1700000000 : Nat) = .ok r ∧
      r.Type_ = 0x05 ∧ r.Timestamp = 1700000000 ∧
      r.Temperature.Valid = true ∧ r.Humidity.Valid = true ∧
      r.Pressure = { Valid := true, Value := 100044 } ∧
      r.AccelerationX = { Valid := true, Value := 4 } ∧
      r.AccelerationY = { Valid := true, Value := -4 } ∧
      r.AccelerationZ = { Valid := true, Value := 1036 } ∧
      r.BatteryVoltage.Valid = true ∧
      r.TransmitPower = { Valid := true, Value := 4 } ∧
      r.MovementCounter = { Valid := true, Value := 66 } ∧
      r.SequenceNumber = { Valid := true, Value := 205 } ∧
      r.MAC.Value 0 = 0xCB ∧ r.MAC.Value 1 = 0xB8 ∧ r.MAC.Value 2 = 0x33 ∧
      r.MAC.Value 3 = 0x4C ∧ r.MAC.Value 4 = 0x88 ∧ r.MAC.Value 5 = 0x4F := by
  obtain ⟨r, hr, hty, hts, hT, hH, hP, hX, hY, hZ, -, -, -, hB, hW, hM, hS,
    m0, m1, m2, m3, m4, m5, -, -⟩ :=
    C5_full_layout_field_table VECTOR_GOOD (1700000000 : Nat) (by decide) (by decide)
  refine ⟨r, hr, hty, hts, ?_, ?_, ?_, ?_, ?_, ?_, ?_, ?_, ?_, ?_, m0, m1, m2, m3, m4, m5⟩
  · rw [hT]; decide
  · rw [hH]; decide
  · rw [hP]; decide
  · rw [hX]; decide
  · rw [hY]; decide
  · rw [hZ]; decide
  · rw [hB]; decide
  · rw [hW]; decide
  · rw [hM]; decide
  · rw [hS]; decide

/-- C6: a buffer `d` with `d[0] = 0xC5` and at least 18 bytes is decoded, for
every timestamp `t`, to the reading with `Type = 0xC5`, `Timestamp = t`,
temperature, humidity and pressure from the big-endian pairs at bytes 1-2, 3-4
and 5-6, battery voltage and transmit power both from the pair at bytes 7-8,
the movement counter from byte 9, the sequence number from the pair at bytes
10-11, and the MAC equal to bytes 12 to 17 in order. -/
theorem C6_cut_layout_field_table {τ : Type} (d : List Byte) (t : τ)
    (hlen : 18 ≤ d.length) (htag : d[0] = 0xC5) :
    ∃ r, ParseWithTime d t = .ok r ∧
      r.Type_ = 0xC5 ∧ r.Timestamp = t ∧
      r.Temperature = newTemperature (BE16 d[1] d[2]) ∧
      r.Humidity = newHumidity (BE16 d[3] d[4]) ∧
      r.Pressure = newPressure (BE16 d[5] d[6]) ∧
      r.BatteryVoltage = newBatteryVoltage (BE16 d[7] d[8]) ∧
      r.TransmitPower = newTransmitPower (BE16 d[7] d[8]) ∧
      r.MovementCounter = newMovementCounter d[9] ∧
      r.SequenceNumber = newSequenceNumber (BE16 d[10] d[11]) ∧
      r.MAC.Value 0 = d[12] ∧ r.MAC.Value 1 = d[13] ∧ r.MAC.Value 2 = d[14] ∧
      r.MAC.Value 3 = d[15] ∧ r.MAC.Value 4 = d[16] ∧ r.MAC.Value 5 = d[17] := by
  obtain ⟨b0, b1, b2, b3, b4, b5, b6, b7, b8, b9, b10, b11, b12, b13, b14, b15, b16, b17,
    rest, rfl⟩ := shape18 d hlen
  have hb : b0.val = 0xC5 := by
    have : b0 = 0xC5 := by simpa using htag
    rw [this]; rfl
  have hr := (ParseWithTime_cons_cut b0 _ t hb).trans
    ((if_neg (by simp only [List.length_cons]; omega)).trans
      (decodeFields_cut b0 b1 b2 b3 b4 b5 b6 b7 b8 b9 b10 b11 b12 b13 b14 b15 b16 b17
        rest t (by rw [hb]; decide)))
  exact ⟨_, hr, hb, rfl, rfl, rfl, rfl, rfl, rfl, rfl, rfl, rfl, rfl, rfl, rfl, rfl, rfl⟩

/-- C6, at `VECTOR_GOOD_CUT`: the values `TestBasicCut` expects. -/
theorem C6_cut_layout_witness :
    ∃ r, ParseWithTime VECTOR_GOOD_CUT (1700000000 : Nat) = .ok r ∧
      r.Type_ = 0xC5 ∧ r.Timestamp = 1700000000 ∧
      r.Temperature.Valid = true ∧ r.Humidity.Valid = true ∧
      r.Pressure = { Valid := true, Value := 100044 } ∧
      r.BatteryVoltage.Valid = true ∧
      r.TransmitPower = { Valid := true, Value := 4 } ∧
      r.MovementCounter = { Valid := true, Value := 66 } ∧
      r.SequenceNumber = { Valid := true, Value := 205 } ∧
      r.MAC.Value 0 = 0xCB ∧ r.MAC.Value 1 = 0xB8 ∧ r.MAC.Value 2 = 0x33 ∧
      r.MAC.Value 3 = 0x4C ∧ r.MAC.Value 4 = 0x88 ∧ r.MAC.Value 5 = 0x4F := by
  obtain ⟨r, hr, hty, hts, hT, hH, hP, hB, hW, hM, hS, m0, m1, m2, m3, m4, m5⟩ :=
    C6_cut_layout_field_table VECTOR_GOOD_CUT (1700000000 : Nat) (by decide) (by decide)
  refine ⟨r, hr, hty, hts, ?_, ?_, ?_, ?_, ?_, ?_, ?_, m0, m1, m2, m3, m4, m5⟩
  · rw [hT]; decide
  · rw [hH]; decide
  · rw [hP]; decide
  · rw [hB]; decide
  · rw [hW]; decide
  · rw [hM]; decide
  · rw [hS]; decide

/-- C7: whatever the other bytes of a buffer `d` with `d[0] = 0xC5` and at
least 18 bytes are, the reading `ParseWithTime` returns has all three
acceleration fields invalid. -/
theorem C7_cut_layout_has_no_acceleration {τ : Type} (d : List Byte) (t : τ)
    (hlen : 18 ≤ d.length) (htag : d[0] = 0xC5) :
    ∃ r, ParseWithTime d t = .ok r ∧
      r.AccelerationX.Valid = false ∧ r.AccelerationY.Valid = false ∧
      r.AccelerationZ.Valid = false := by
  obtain ⟨b0, b1, b2, b3, b4, b5, b6, b7, b8, b9, b10, b11, b12, b13, b14, b15, b16, b17,
    rest, rfl⟩ := shape18 d hlen
  have hb : b0.val = 0xC5 := by
    have : b0 = 0xC5 := by simpa using htag
    rw [this]; rfl
  have hr := (ParseWithTime_cons_cut b0 _ t hb).trans
    ((if_neg (by simp only [List.length_cons]; omega)).trans
      (decodeFields_cut b0 b1 b2 b3 b4 b5 b6 b7 b8 b9 b10 b11 b12 b13 b14 b15 b16 b17
        rest t (by rw [hb]; decide)))
  exact ⟨_, hr, rfl, rfl, rfl⟩

/-- C7, at `VECTOR_BAD_CUT` (bytes 7-8 hold `0xFFFF`, not the acceleration
sentinel) followed by six more bytes. -/
theorem C7_cut_layout_witness :
    ∃ r, ParseWithTime (VECTOR_BAD_CUT ++ [0x00, 0x04, 0xFF, 0xFC, 0x04, 0x0C])
        (1700000000 : Nat) = .ok r ∧
      r.AccelerationX.Valid = false ∧ r.AccelerationY.Valid = false ∧
      r.AccelerationZ.Valid = false :=
  C7_cut_layout_has_no_acceleration (VECTOR_BAD_CUT ++ [0x00, 0x04, 0xFF, 0xFC, 0x04, 0x0C])
    (1700000000 : Nat) (by decide) (by decide)

/-- C8: each whole-field transform marks its field valid exactly when the raw
value differs from the field's sentinel: `0x8000` for temperature and
acceleration, `0xFFFF` for humidity, pressure and sequence number, `0xFF` for
the movement counter. -/
theorem C8_valid_iff_not_sentinel :
    (∀ raw : U16, (newTemperature raw).Valid = true ↔ raw.val ≠ 0x8000) ∧
    (∀ raw : U16, (newHumidity raw).Valid = true ↔ raw.val ≠ 0xFFFF) ∧
    (∀ raw : U16, (newPressure raw).Valid = true ↔ raw.val ≠ 0xFFFF) ∧
    (∀ raw : U16, (newAcceleration raw).Valid = true ↔ raw.val ≠ 0x8000) ∧
    (∀ raw : Byte, (newMovementCounter raw).Valid = true ↔ raw.val ≠ 0xFF) ∧
    (∀ raw : U16, (newSequenceNumber raw).Valid = true ↔ raw.val ≠ 0xFFFF) := by
  refine ⟨fun raw => ?_, fun raw => ?_, fun raw => ?_, fun raw => ?_, fun raw => ?_,
    fun raw => ?_⟩
  · by_cases h : raw.val = 0x8000 <;> simp [newTemperature, h]
  · by_cases h : raw.val = 0xFFFF <;> simp [newHumidity, h]
  · by_cases h : raw.val = 0xFFFF <;> simp [newPressure, h]
  · by_cases h : raw.val = 0x8000 <;> simp [newAcceleration, h]
  · by_cases h : raw.val = 0xFF <;> simp [newMovementCounter, h]
  · by_cases h : raw.val = 0xFFFF <;> simp [newSequenceNumber, h]

/-- C9: battery voltage and transmit power are decoded independently from the
same 16-bit value `p`: the voltage is valid exactly when `p >> 5` is not
`0x7FF`, the power exactly when `p & 0x1F` is not `0x1F`; the voltage result
is the same for two values with the same top 11 bits, the power result is the
same for two values with the same low 5 bits; and each of the four
valid/invalid combinations occurs. -/
theorem C9_battery_and_power_are_independent :
    (∀ p : U16, (newBatteryVoltage p).Valid = true ↔ p.val >>> 5 ≠ 0x7FF) ∧
    (∀ p : U16, (newTransmitPower p).Valid = true ↔ p.val &&& 0x1F ≠ 0x1F) ∧
    (∀ p q : U16, p.val >>> 5 = q.val >>> 5 → newBatteryVoltage p = newBatteryVoltage q) ∧
    (∀ p q : U16, p.val &&& 0x1F = q.val &&& 0x1F → newTransmitPower p = newTransmitPower q) ∧
    (∃ p : U16, (newBatteryVoltage p).Valid = true ∧ (newTransmitPower p).Valid = true) ∧
    (∃ p : U16, (newBatteryVoltage p).Valid = true ∧ (newTransmitPower p).Valid = false) ∧
    (∃ p : U16, (newBatteryVoltage p).Valid = false ∧ (newTransmitPower p).Valid = true) ∧
    (∃ p : U16, (newBatteryVoltage p).Valid = false ∧ (newTransmitPower p).Valid = false) := by
  refine ⟨fun p => ?_, fun p => ?_, fun p q h => ?_, fun p q h => ?_,
    ⟨0x0000, by decide, by decide⟩, ⟨0x001F, by decide, by decide⟩,
    ⟨0xFFE0, by decide, by decide⟩, ⟨0xFFFF, by decide, by decide⟩⟩
  · by_cases h : p.val >>> 5 = 0x7FF <;> simp [newBatteryVoltage, h]
  · by_cases h : p.val &&& 0x1F = 0x1F <;> simp [newTransmitPower, h]
  · simp only [newBatteryVoltage, h]
  · have h2 : p.val &&& 0b11111 = q.val &&& 0b11111 := h
    simp only [newTransmitPower, h2]

/-- C10: for every 16-bit raw value the pressure value is `raw + 50000`
exactly, the 32-bit addition does not wrap, the value lies in
`50000 .. 115535`, and a valid pressure lies in `50000 .. 115534`. -/
theorem C10_pressure_does_not_wrap (raw : U16) :
    (newPressure raw).Value = raw.val + 50000 ∧
    (newPressure raw).Value < 2 ^ 32 ∧
    50000 ≤ (newPressure raw).Value ∧ (newPressure raw).Value ≤ 115535 ∧
    ((newPressure raw).Valid = true →
      50000 ≤ (newPressure raw).Value ∧ (newPressure raw).Value ≤ 115534) := by
  have hv : (newPressure raw).Value = raw.val + 50000 := by
    have h := raw.isLt
    simp only [newPressure]
    omega
  have hvalid : (newPressure raw).Valid = true → raw.val ≠ 0xFFFF := by
    by_cases h : raw.val = 0xFFFF <;> simp [newPressure, h]
  have h := raw.isLt
  refine ⟨hv, ?_, ?_, ?_, fun hV => ?_⟩
  · rw [hv]; omega
  · rw [hv]; omega
  · rw [hv]; omega
  · have := hvalid hV
    rw [hv]
    omega

/-- C10, at the extremes: raw `0xFFFE` (as in `VECTOR_MAX`) is the valid
pressure 115534, raw `0xFFFF` is the invalid one with value 115535. -/
theorem C10_pressure_witness :
    (50000 ≤ (newPressure 0xFFFE).Value ∧ (newPressure 0xFFFE).Value ≤ 115534) ∧
    (newPressure 0xFFFE).Value = 115534 ∧ (newPressure 0xFFFF).Value = 115535 :=
  ⟨(C10_pressure_does_not_wrap 0xFFFE).2.2.2.2 (by decide),
   (C10_pressure_does_not_wrap 0xFFFE).1, (C10_pressure_does_not_wrap 0xFFFF).1⟩

/-- C11: for every 16-bit raw value `p` the transmit power value is
`2 * (p & 0x1F) - 40` as an exact integer: neither the unsigned 16-bit
multiplication nor the `int16` subtraction wraps. A valid transmit power is an
even number in `-40 .. 20`; the minimum `-40` is taken at low bits 0, the
maximum `20` at low bits 30. -/
theorem C11_transmit_power_is_exact (p : U16) :
    (newTransmitPower p).Value = 2 * ((p.val &&& 0x1F : Nat) : Int) - 40 ∧
    (p.val &&& 0x1F) * 2 < 65536 ∧
    (-32768 ≤ 2 * ((p.val &&& 0x1F : Nat) : Int) - 40 ∧
      2 * ((p.val &&& 0x1F : Nat) : Int) - 40 ≤ 32767) ∧
    ((newTransmitPower p).Valid = true →
      (newTransmitPower p).Value % 2 = 0 ∧
      -40 ≤ (newTransmitPower p).Value ∧ (newTransmitPower p).Value ≤ 20) ∧
    (p.val &&& 0x1F = 0 → (newTransmitPower p).Value = -40) ∧
    (p.val &&& 0x1F = 30 → (newTransmitPower p).Value = 20) := by
  have hle : p.val &&& 0x1F ≤ 0x1F := Nat.and_le_right
  have hv : (newTransmitPower p).Value = 2 * ((p.val &&& 0x1F : Nat) : Int) - 40 := by
    have h1 : (p.val &&& 0b11111) * 2 % 65536 = (p.val &&& 0x1F) * 2 :=
      Nat.mod_eq_of_lt (by omega)
    have h2 : (p.val &&& 0x1F) * 2 % 65536 = (p.val &&& 0x1F) * 2 := h1
    simp only [newTransmitPower, int16, wrapInt16, h1, h2]
    rw [if_pos (by omega)]
    omega
  have hvalid : (newTransmitPower p).Valid = true → p.val &&& 0x1F ≠ 0x1F := by
    intro h
    by_cases h31 : p.val &&& 0b11111 = 0x1f
    · simp [newTransmitPower, h31] at h
    · exact h31
  refine ⟨hv, by omega, ⟨by omega, by omega⟩, fun hV => ?_, fun h0 => ?_, fun h30 => ?_⟩
  · have := hvalid hV
    rw [hv]
    omega
  · rw [hv, h0]; rfl
  · rw [hv, h30]; rfl

/-- C11, at the test vectors: raw `0xAC36` (low bits 22) is 4 dBm, low bits 30
give the maximum 20 dBm, low bits 0 the minimum -40 dBm, each valid. -/
theorem C11_transmit_power_witness :
    ((newTransmitPower 0xAC36).Value % 2 = 0 ∧
      -40 ≤ (newTransmitPower 0xAC36).Value ∧ (newTransmitPower 0xAC36).Value ≤ 20) ∧
    (newTransmitPower 0xAC36).Value = 4 ∧
    (newTransmitPower 0xFFDE).Value = 20 ∧ (newTransmitPower 0x0000).Value = -40 :=
  ⟨(C11_transmit_power_is_exact 0xAC36).2.2.2.1 (by decide), by decide,
   (C11_transmit_power_is_exact 0xFFDE).2.2.2.2.2 (by decide),
   (C11_transmit_power_is_exact 0x0000).2.2.2.2.1 (by decide)⟩

/-! ## Lemmas on the MAC text codec -/

set_option maxRecDepth 100000 in
theorem fmtHex_two_lower : ∀ b : Byte, fmtHex ldigits 2 b.val = hexPair ldigits b := by
  decide

set_option maxRecDepth 100000 in
theorem fmtHex_two_upper : ∀ b : Byte, fmtHex udigits 2 b.val = hexPair udigits b := by
  decide

theorem ldigits_isHex : ∀ n : Fin 16, IsHexDigitOf (ldigits.getD n.val '0') n.val := by
  decide

theorem udigits_isHex : ∀ n : Fin 16, IsHexDigitOf (udigits.getD n.val '0') n.val := by
  decide

theorem skipSpaceRunes_of_hex {c : Char} {n : Nat} (H : IsHexDigitOf c n)
    (lim : Nat) (rest : List Char) (k : Nat) :
    skipSpaceRunes lim (c :: rest) k = .ok (c :: rest, k) := by
  obtain ⟨h1, h2, -, -, h3, -⟩ := H
  simp [skipSpaceRunes, h1, h2, h3]

theorem acceptRunes_at_limit (ok : List Char) (lim : Nat) (rest buf : List Char) :
    acceptRunes ok lim rest lim buf = (rest, lim, buf) := by
  cases rest <;> simp [acceptRunes]

theorem ParseUint16_pair {c1 c2 : Char} {h l : Nat} (hh : h < 16) (hl : l < 16)
    (H1 : IsHexDigitOf c1 h) (H2 : IsHexDigitOf c2 l) :
    ParseUint16 [c1, c2] = .ok (h * 16 + l) := by
  obtain ⟨-, -, -, -, -, -, d1, -⟩ := H1
  obtain ⟨-, -, -, -, -, -, d2, -⟩ := H2
  have e1 : ¬ 16 ≤ h := by omega
  have e2 : ¬ 16 ≤ l := by omega
  have e3 : ¬ 18446744073709551616 ≤ h * 16 + l := by omega
  have e4 : ¬ 18446744073709551616 ≤ h := by omega
  simp [ParseUint16, List.foldlM, d1, d2, e1, e2, e3, e4, bind, Except.bind]
  rfl

theorem scanUint_pair {c1 c2 : Char} {h l : Nat} (hh : h < 16) (hl : l < 16)
    (H1 : IsHexDigitOf c1 h) (H2 : IsHexDigitOf c2 l) (rest : List Char) (k lim : Nat) :
    ss.scanUint ⟨c1 :: c2 :: rest, k, k + 2, lim⟩ 8 =
      .ok (h * 16 + l, ⟨rest, k + 2, k + 2, lim⟩) := by
  have a1 : hexadecimalDigits.contains c1 = true := H1.2.2.2.2.2.1
  have a2 : hexadecimalDigits.contains c2 = true := H2.2.2.2.2.2.1
  have m1 : c1 ∈ hexadecimalDigits := by simpa using a1
  have m2 : c2 ∈ hexadecimalDigits := by simpa using a2
  have hv : ¬ 256 ≤ h * 16 + l := by omega
  simp [ss.scanUint, ss.SkipSpace, skipSpaceRunes_of_hex H1, ss.getRune, ss.scanNumber,
    acceptRunes, m1, m2, acceptRunes_at_limit, ParseUint16_pair hh hl H1 H2, hv,
    bind, Except.bind, pure, Except.pure, throw, throwThe, MonadExceptOf.throw]

theorem doScanf_lit (c : Char) (format : List Directive) (rest : List Char) (k n : Nat)
    (a : List Byte) (hk : k < hugeWid) :
    doScanf (.lit c :: format) ⟨c :: rest, k, hugeWid, hugeWid⟩ n a =
      doScanf format ⟨rest, k + 1, hugeWid, hugeWid⟩ n a := by
  simp [doScanf, ss.getRune, Nat.not_le.mpr hk]

theorem doScanf_hex {c1 c2 : Char} {h l : Nat} (hh : h < 16) (hl : l < 16)
    (H1 : IsHexDigitOf c1 h) (H2 : IsHexDigitOf c2 l) (u : Bool) (format : List Directive)
    (rest : List Char) (k n : Nat) (a : List Byte) (hk : k + 2 ≤ hugeWid) (hn : n < a.length) :
    doScanf (.hex 2 u :: format) ⟨c1 :: c2 :: rest, k, hugeWid, hugeWid⟩ n a =
      doScanf format ⟨rest, k + 2, hugeWid, hugeWid⟩ (n + 1)
        (a.set n ⟨(h * 16 + l) % 256, Nat.mod_lt _ (by decide)⟩) := by
  have hmin : min hugeWid (k + 2) = k + 2 := Nat.min_eq_right hk
  simp [doScanf, ss.SkipSpace, skipSpaceRunes_of_hex H1, hmin, scanUint_pair hh hl H1 H2,
    Nat.not_le.mpr hn]

theorem digitTable_isHex (upper : Bool) (n : Nat) (hn : n < 16) :
    IsHexDigitOf ((digitTable upper).getD n '0') n := by
  cases upper
  · exact ldigits_isHex ⟨n, hn⟩
  · exact udigits_isHex ⟨n, hn⟩

theorem nibbles_eq (b : Byte) :
    (⟨(b.val / 16 * 16 + b.val % 16) % 256, Nat.mod_lt _ (by decide)⟩ : Byte) = b := by
  apply Fin.ext
  have := b.isLt
  simp only
  omega

/-- The first scan of `UnmarshalJSON` reads the quoted colon-hex rendering of
an address, in any case and whatever follows it, into the six bytes. -/
theorem Sscanf_macText (upper : Fin 6 → Bool) (a : MAC) (tail : List Char) :
    Sscanf (macText upper a ++ tail) formatLower [0, 0, 0, 0, 0, 0] =
      ⟨6, none, [a.Value 0, a.Value 1, a.Value 2, a.Value 3, a.Value 4, a.Value 5]⟩ := by
  have hi : ∀ (u : Bool) (b : Byte),
      IsHexDigitOf ((digitTable u).getD (b.val / 16) '0') (b.val / 16) :=
    fun u b => digitTable_isHex u _ (by have := b.isLt; omega)
  have lo : ∀ (u : Bool) (b : Byte),
      IsHexDigitOf ((digitTable u).getD (b.val % 16) '0') (b.val % 16) :=
    fun u b => digitTable_isHex u _ (by omega)
  have hlt : ∀ b : Byte, b.val / 16 < 16 := fun b => by have := b.isLt; omega
  have llt : ∀ b : Byte, b.val % 16 < 16 := fun b => by omega
  simp only [macText, hexPair, Sscanf, formatLower, List.cons_append, List.nil_append]
  refine (doScanf_lit _ _ _ _ _ _ (by decide)).trans ?_
  refine (doScanf_hex (hlt _) (llt _) (hi _ _) (lo _ _) _ _ _ _ _ _ ?_ ?_).trans ?_
  · decide
  · simp
  refine (doScanf_lit _ _ _ _ _ _ (by decide)).trans ?_
  refine (doScanf_hex (hlt _) (llt _) (hi _ _) (lo _ _) _ _ _ _ _ _ ?_ ?_).trans ?_
  · decide
  · simp
  refine (doScanf_lit _ _ _ _ _ _ (by decide)).trans ?_
  refine (doScanf_hex (hlt _) (llt _) (hi _ _) (lo _ _) _ _ _ _ _ _ ?_ ?_).trans ?_
  · decide
  · simp
  refine (doScanf_lit _ _ _ _ _ _ (by decide)).trans ?_
  refine (doScanf_hex (hlt _) (llt _) (hi _ _) (lo _ _) _ _ _ _ _ _ ?_ ?_).trans ?_
  · decide
  · simp
  refine (doScanf_lit _ _ _ _ _ _ (by decide)).trans ?_
  refine (doScanf_hex (hlt _) (llt _) (hi _ _) (lo _ _) _ _ _ _ _ _ ?_ ?_).trans ?_
  · decide
  · simp
  refine (doScanf_lit _ _ _ _ _ _ (by decide)).trans ?_
  refine (doScanf_hex (hlt _) (llt _) (hi _ _) (lo _ _) _ _ _ _ _ _ ?_ ?_).trans ?_
  · decide
  · simp
  refine (doScanf_lit _ _ _ _ _ _ (by decide)).trans ?_
  simp [doScanf, nibbles_eq]

theorem MAC_eq_of_bytes (a : MAC) (v : MAC) :
    ({ v with Value := fun i =>
        [a.Value 0, a.Value 1, a.Value 2, a.Value 3, a.Value 4, a.Value 5].getD i.val 0 } : MAC)
      = a := by
  cases a with
  | mk f =>
    congr 1
    funext i
    fin_cases i <;> rfl

/-- `UnmarshalJSON` reads the quoted colon-hex rendering of an address, in
any case and whatever follows it, back to the address. -/
theorem UnmarshalJSON_macText (v : MAC) (upper : Fin 6 → Bool) (a : MAC) (tail : List Char) :
    v.UnmarshalJSON (macText upper a ++ tail) = (a, none) := by
  simp only [MAC.UnmarshalJSON, Sscanf_macText]
  exact congrArg (fun m => (m, (none : Option Error))) (MAC_eq_of_bytes a v)

theorem String_eq_pairs (a : MAC) :
    a.String = hexPair ldigits (a.Value 0) ++ [':'] ++ hexPair ldigits (a.Value 1) ++ [':'] ++
      hexPair ldigits (a.Value 2) ++ [':'] ++ hexPair ldigits (a.Value 3) ++ [':'] ++
      hexPair ldigits (a.Value 4) ++ [':'] ++ hexPair ldigits (a.Value 5) := by
  simp only [MAC.String, fmtHex_two_lower]

theorem upperString_eq_pairs (a : MAC) :
    upperString a = hexPair udigits (a.Value 0) ++ [':'] ++ hexPair udigits (a.Value 1) ++
      [':'] ++ hexPair udigits (a.Value 2) ++ [':'] ++ hexPair udigits (a.Value 3) ++ [':'] ++
      hexPair udigits (a.Value 4) ++ [':'] ++ hexPair udigits (a.Value 5) := by
  simp only [upperString, fmtHex_two_upper]

theorem jsonEscape_ldigit (b : Byte) :
    jsonEscape (ldigits.getD (b.val / 16) '0') = [ldigits.getD (b.val / 16) '0'] ∧
    jsonEscape (ldigits.getD (b.val % 16) '0') = [ldigits.getD (b.val % 16) '0'] :=
  ⟨(ldigits_isHex ⟨b.val / 16, by have := b.isLt; omega⟩).2.2.2.2.2.2.2,
   (ldigits_isHex ⟨b.val % 16, by omega⟩).2.2.2.2.2.2.2⟩

theorem MarshalJSON_eq_quoted (a : MAC) : a.MarshalJSON = '"' :: (a.String ++ ['"']) := by
  have hc : jsonEscape ':' = [':'] := by decide
  simp only [MAC.MarshalJSON, jsonMarshalString, String_eq_pairs, hexPair, List.cons_append,
    List.nil_append, List.flatMap_cons, List.flatMap_nil, List.append_nil, hc,
    (jsonEscape_ldigit _).1, (jsonEscape_ldigit _).2, List.singleton_append]

theorem MarshalJSON_eq_macText (a : MAC) : a.MarshalJSON = macText (fun _ => false) a := by
  rw [MarshalJSON_eq_quoted, String_eq_pairs]
  simp [macText, digitTable, hexPair]

/-- C13: for every address `a` (and every receiver `v`), `UnmarshalJSON`
applied to the output of `a.MarshalJSON()` returns no error and leaves the
receiver with the six bytes of `a`. -/
theorem C13_unmarshal_of_marshal_is_identity (a v : MAC) :
    v.UnmarshalJSON a.MarshalJSON = (a, none) ∧
    (v.UnmarshalJSON a.MarshalJSON).2 = none ∧
    (∀ i : Fin 6, (v.UnmarshalJSON a.MarshalJSON).1.Value i = a.Value i) := by
  have h : v.UnmarshalJSON a.MarshalJSON = (a, none) := by
    have := UnmarshalJSON_macText v (fun _ => false) a []
    rwa [List.append_nil, ← MarshalJSON_eq_macText] at this
  refine ⟨h, ?_, fun i => ?_⟩
  · rw [h]
  · rw [h]

theorem ldigits_getD_mem : ∀ n : Fin 16, ldigits.getD n.val '0' ∈ ldigits := by
  decide

theorem hexPair_ldigits_mem (b : Byte) : ∀ c ∈ hexPair ldigits b, c ∈ ldigits := by
  intro c hc
  simp only [hexPair, List.mem_cons, List.mem_singleton, List.not_mem_nil, or_false] at hc
  rcases hc with rfl | rfl
  · exact ldigits_getD_mem ⟨b.val / 16, by have := b.isLt; omega⟩
  · exact ldigits_getD_mem ⟨b.val % 16, by omega⟩

theorem lower_alphabet_not_upper :
    ∀ c ∈ "0123456789abcdef:".toList, c.isUpper = false := by
  decide

/-- C14: for every address `a`, `a.String()` is the six byte values, byte 0
first, each as two hexadecimal digits (high nibble, low nibble) from the
lower-case digit table, separated by five colons: 17 characters, each one of
`0123456789abcdef:`, none an upper-case letter. `MarshalJSON` emits that
string between two double quotes. -/
theorem C14_String_is_17_lower_case_characters (a : MAC) :
    a.String.length = 17 ∧
    a.String =
      hexPair ldigits (a.Value 0) ++ ':' :: (hexPair ldigits (a.Value 1) ++ ':' ::
      (hexPair ldigits (a.Value 2) ++ ':' :: (hexPair ldigits (a.Value 3) ++ ':' ::
      (hexPair ldigits (a.Value 4) ++ ':' :: hexPair ldigits (a.Value 5))))) ∧
    (∀ b : Byte, hexPair ldigits b =
      ["0123456789abcdef".toList.getD (b.val / 16) '0',
       "0123456789abcdef".toList.getD (b.val % 16) '0']) ∧
    (∀ c ∈ a.String, c ∈ "0123456789abcdef:".toList) ∧
    (∀ c ∈ a.String, c.isUpper = false) ∧
    a.MarshalJSON = '"' :: (a.String ++ ['"']) ∧
    (⟨![0x01, 0x02, 0x03, 0x04, 0x05, 0xF6]⟩ : MAC).MarshalJSON
      = "\"01:02:03:04:05:f6\"".toList := by
  have hs := String_eq_pairs a
  have hmem : ∀ c ∈ a.String, c ∈ "0123456789abcdef:".toList := by
    intro c hc
    rw [hs] at hc
    have hl : ∀ x ∈ ldigits, x ∈ "0123456789abcdef:".toList := by decide
    simp only [List.mem_append, List.mem_singleton] at hc
    rcases hc with ((((((((((h | h) | h) | h) | h) | h) | h) | h) | h) | h) | h)
    · exact hl c (hexPair_ldigits_mem _ c h)
    · rw [h]; decide
    · exact hl c (hexPair_ldigits_mem _ c h)
    · rw [h]; decide
    · exact hl c (hexPair_ldigits_mem _ c h)
    · rw [h]; decide
    · exact hl c (hexPair_ldigits_mem _ c h)
    · rw [h]; decide
    · exact hl c (hexPair_ldigits_mem _ c h)
    · rw [h]; decide
    · exact hl c (hexPair_ldigits_mem _ c h)
  refine ⟨?_, ?_, fun _ => rfl, hmem, fun c hc => lower_alphabet_not_upper c (hmem c hc),
    MarshalJSON_eq_quoted a, ?_⟩
  · rw [hs]; rfl
  · rw [hs]; simp [hexPair]
  · decide

theorem quoted_String_eq_macText (a : MAC) :
    '"' :: (a.String ++ ['"']) = macText (fun _ => false) a := by
  rw [String_eq_pairs]
  simp [macText, digitTable, hexPair]

theorem quoted_upperString_eq_macText (a : MAC) :
    '"' :: (upperString a ++ ['"']) = macText (fun _ => true) a := by
  rw [upperString_eq_pairs]
  simp [macText, digitTable, hexPair]

theorem UnmarshalJSON_macText_nil (v : MAC) (upper : Fin 6 → Bool) (a : MAC) :
    v.UnmarshalJSON (macText upper a) = (a, none) := by
  have := UnmarshalJSON_macText v upper a []
  rwa [List.append_nil] at this

/-- C16: for every address `a` (and every receiver `v`), `UnmarshalJSON`
accepts the quoted lower-case rendering of `a` and the quoted upper-case
rendering of `a`, and both leave the receiver with the six bytes of `a`; so
does every rendering that chooses the case pair by pair. On the inputs of
`TestMacDecodeJsonLower` and `TestMacDecodeJsonUpper` it returns the bytes the
tests expect. -/
theorem C16_both_cases_are_accepted (a v : MAC) :
    v.UnmarshalJSON ('"' :: (a.String ++ ['"'])) = (a, none) ∧
    v.UnmarshalJSON ('"' :: (upperString a ++ ['"'])) = (a, none) ∧
    (∀ i : Fin 6,
      (v.UnmarshalJSON ('"' :: (a.String ++ ['"']))).1.Value i = a.Value i ∧
      (v.UnmarshalJSON ('"' :: (upperString a ++ ['"']))).1.Value i = a.Value i) ∧
    (∀ upper : Fin 6 → Bool, v.UnmarshalJSON (macText upper a) = (a, none)) ∧
    ((List.finRange 6).map (v.UnmarshalJSON "\"06:05:04:a3:02:01\"".toList).1.Value
      = [0x06, 0x05, 0x04, 0xA3, 0x02, 0x01]) ∧
    ((List.finRange 6).map (v.UnmarshalJSON "\"06:05:04:F3:02:01\"".toList).1.Value
      = [0x06, 0x05, 0x04, 0xF3, 0x02, 0x01]) := by
  have hany : ∀ upper : Fin 6 → Bool, v.UnmarshalJSON (macText upper a) = (a, none) :=
    fun upper => UnmarshalJSON_macText_nil v upper a
  have hl : v.UnmarshalJSON ('"' :: (a.String ++ ['"'])) = (a, none) := by
    rw [quoted_String_eq_macText]; exact hany _
  have hu : v.UnmarshalJSON ('"' :: (upperString a ++ ['"'])) = (a, none) := by
    rw [quoted_upperString_eq_macText]; exact hany _
  refine ⟨hl, hu, fun i => ⟨by rw [hl], by rw [hu]⟩, hany, ?_, ?_⟩
  · have e : "\"06:05:04:a3:02:01\"".toList
        = macText (fun _ => false) ⟨![0x06, 0x05, 0x04, 0xA3, 0x02, 0x01]⟩ := by decide
    rw [e, UnmarshalJSON_macText_nil]
    rfl
  · have e : "\"06:05:04:F3:02:01\"".toList
        = macText (fun _ => true) ⟨![0x06, 0x05, 0x04, 0xF3, 0x02, 0x01]⟩ := by decide
    rw [e, UnmarshalJSON_macText_nil]
    rfl

theorem Sscanf_without_opening_quote (b : List Char) (format : List Directive)
    (a : List Byte) (hb : b.head? ≠ some '"') :
    (Sscanf b ('"' |> Directive.lit |> (· :: format)) a).err ≠ none := by
  rcases b with _ | ⟨c, rest⟩
  · simp [Sscanf, doScanf, ss.getRune, hugeWid]
  · have hc : c ≠ '"' := by simpa using hb
    simp [Sscanf, doScanf, ss.getRune, hugeWid, hc]

theorem UnmarshalJSON_of_fail (v : MAC) (b : List Char) (h : BothScansFail b) :
    ∃ d, v.UnmarshalJSON b = (v, some ⟨.ErrorBadMAC, d⟩) := by
  obtain ⟨h1, h2⟩ := h
  simp only [MAC.UnmarshalJSON, if_pos h1, if_pos h2]
  exact ⟨_, rfl⟩

theorem UnmarshalJSON_of_not_fail (v : MAC) (b : List Char) (h : ¬ BothScansFail b) :
    ∃ m, v.UnmarshalJSON b = (m, none) := by
  by_cases h1 : (Sscanf b formatLower [0, 0, 0, 0, 0, 0]).n ≠ 6 ∨
      (Sscanf b formatLower [0, 0, 0, 0, 0, 0]).err ≠ none
  · have h2 : ¬ ((Sscanf b formatUpper (Sscanf b formatLower [0, 0, 0, 0, 0, 0]).args).n ≠ 6 ∨
        (Sscanf b formatUpper (Sscanf b formatLower [0, 0, 0, 0, 0, 0]).args).err ≠ none) :=
      fun h2 => h ⟨h1, h2⟩
    simp only [MAC.UnmarshalJSON, if_pos h1, if_neg h2]
    exact ⟨_, rfl⟩
  · simp only [MAC.UnmarshalJSON, if_neg h1]
    exact ⟨_, rfl⟩

theorem UnmarshalJSON_error_iff (v : MAC) (b : List Char) :
    (v.UnmarshalJSON b).2 ≠ none ↔ BothScansFail b := by
  constructor
  · intro h
    by_contra hn
    obtain ⟨m, hm⟩ := UnmarshalJSON_of_not_fail v b hn
    rw [hm] at h
    exact h rfl
  · intro h
    obtain ⟨d, hd⟩ := UnmarshalJSON_of_fail v b h
    rw [hd]
    simp

/-- C15, on the code: `UnmarshalJSON` accepts the quoted address with
single-digit groups `"1:2:3:4:5:6"` (the widths of the scan verbs are upper
bounds), and also spaces before a group and any text after the closing quote;
each time it returns no error and sets the address. What it does reject:
every error it returns is derived from `ErrorBadMAC`, an input that does not
begin with a double quote is an error, and so is the input of
`TestMacDecodeJsonBad`. -/
theorem C15_single_digit_groups_are_accepted (v : MAC) :
    ((v.UnmarshalJSON "\"1:2:3:4:5:6\"".toList).2 = none ∧
      (List.finRange 6).map (v.UnmarshalJSON "\"1:2:3:4:5:6\"".toList).1.Value
        = [0x01, 0x02, 0x03, 0x04, 0x05, 0x06]) ∧
    ((v.UnmarshalJSON "\" 1:  2:3:4:5:6\"".toList).2 = none ∧
      (List.finRange 6).map (v.UnmarshalJSON "\" 1:  2:3:4:5:6\"".toList).1.Value
        = [0x01, 0x02, 0x03, 0x04, 0x05, 0x06]) ∧
    ((v.UnmarshalJSON "\"01:02:03:04:05:06\" and more".toList).2 = none ∧
      (List.finRange 6).map (v.UnmarshalJSON "\"01:02:03:04:05:06\" and more".toList).1.Value
        = [0x01, 0x02, 0x03, 0x04, 0x05, 0x06]) ∧
    (∀ (b : List Char) (e : Error),
      (v.UnmarshalJSON b).2 = some e → errorsIs e .ErrorBadMAC = true) ∧
    (∀ b : List Char, b.head? ≠ some '"' → (v.UnmarshalJSON b).2 ≠ none) ∧
    (v.UnmarshalJSON "\"06:05:04:F3:02:XY\"".toList).2 ≠ none := by
  refine ⟨⟨rfl, rfl⟩, ⟨rfl, rfl⟩, ⟨rfl, rfl⟩, fun b e h => ?_, fun b hb => ?_, ?_⟩
  · by_cases hf : BothScansFail b
    · obtain ⟨d, hd⟩ := UnmarshalJSON_of_fail v b hf
      rw [hd] at h
      cases h
      rfl
    · obtain ⟨m, hm⟩ := UnmarshalJSON_of_not_fail v b hf
      rw [hm] at h
      cases h
  · have h1 := Sscanf_without_opening_quote b formatLower.tail [0, 0, 0, 0, 0, 0] hb
    have h2 := Sscanf_without_opening_quote b formatUpper.tail
      (Sscanf b formatLower [0, 0, 0, 0, 0, 0]).args hb
    have e1 : (Directive.lit '"' :: formatLower.tail) = formatLower := rfl
    have e2 : (Directive.lit '"' :: formatUpper.tail) = formatUpper := rfl
    simp only [e1, e2] at h1 h2
    exact (UnmarshalJSON_error_iff v b).2 ⟨Or.inr h1, Or.inr h2⟩
  · exact (UnmarshalJSON_error_iff v _).2 (by decide)

/-- C20: when `UnmarshalJSON` returns an error on an input `b`, the receiver
is what it was before the call: all six bytes are unchanged. The receiver is
written only when one of the two scans has read six operands without error. -/
theorem C20_receiver_unchanged_on_error (v : MAC) (b : List Char)
    (h : (v.UnmarshalJSON b).2 ≠ none) :
    (v.UnmarshalJSON b).1 = v ∧
    (∀ i : Fin 6, (v.UnmarshalJSON b).1.Value i = v.Value i) ∧
    (((Sscanf b formatLower [0, 0, 0, 0, 0, 0]).n ≠ 6 ∨
        (Sscanf b formatLower [0, 0, 0, 0, 0, 0]).err ≠ none) ∧
      ((Sscanf b formatUpper (Sscanf b formatLower [0, 0, 0, 0, 0, 0]).args).n ≠ 6 ∨
        (Sscanf b formatUpper (Sscanf b formatLower [0, 0, 0, 0, 0, 0]).args).err ≠ none)) := by
  have hf := (UnmarshalJSON_error_iff v b).1 h
  obtain ⟨d, hd⟩ := UnmarshalJSON_of_fail v b hf
  refine ⟨by rw [hd], fun i => by rw [hd], hf⟩

/-- C20, at the input of `TestMacDecodeJsonBad` with receiver
`01:02:03:04:05:f6`: the first scan has already stored five bytes in the local
operands when it fails, and the receiver still holds its six bytes. -/
theorem C20_receiver_unchanged_witness :
    (Sscanf "\"06:05:04:F3:02:XY\"".toList formatLower [0, 0, 0, 0, 0, 0]).n = 5 ∧
    (Sscanf "\"06:05:04:F3:02:XY\"".toList formatLower [0, 0, 0, 0, 0, 0]).args
      = [0x06, 0x05, 0x04, 0xF3, 0x02, 0x00] ∧
    (List.finRange 6).map
      ((⟨![0x01, 0x02, 0x03, 0x04, 0x05, 0xF6]⟩ : MAC).UnmarshalJSON
        "\"06:05:04:F3:02:XY\"".toList).1.Value
      = [0x01, 0x02, 0x03, 0x04, 0x05, 0xF6] := by
  refine ⟨by decide, by decide, ?_⟩
  rw [(C20_receiver_unchanged_on_error ⟨![0x01, 0x02, 0x03, 0x04, 0x05, 0xF6]⟩
    "\"06:05:04:F3:02:XY\"".toList ((UnmarshalJSON_error_iff _ _).2 (by decide))).1]
  rfl

/-! ## Lemmas on the decoded reading -/

theorem ParseWithTime_plain {τ : Type}
    (b0 b1 b2 b3 b4 b5 b6 b7 b8 b9 b10 b11 b12 b13 b14 b15 b16 b17 b18 b19 b20 b21 b22 b23 : Byte)
    (rest : List Byte) (t : τ) (h0 : b0.val = 0x05) :
    ParseWithTime (b0 :: b1 :: b2 :: b3 :: b4 :: b5 :: b6 :: b7 :: b8 :: b9 :: b10 :: b11 ::
        b12 :: b13 :: b14 :: b15 :: b16 :: b17 :: b18 :: b19 :: b20 :: b21 :: b22 :: b23 :: rest) t
      = .ok (plainReading t b1 b2 b3 b4 b5 b6 b7 b8 b9 b10 b11 b12 b13 b14 b15 b16 b17 b18 b19
          b20 b21 b22 b23) :=
  (ParseWithTime_cons_plain b0 _ t h0).trans
    ((if_neg (by simp only [List.length_cons]; omega)).trans
      (decodeFields_plain b0 b1 b2 b3 b4 b5 b6 b7 b8 b9 b10 b11 b12 b13 b14 b15 b16 b17
        b18 b19 b20 b21 b22 b23 rest t h0))

theorem ParseWithTime_cut {τ : Type}
    (b0 b1 b2 b3 b4 b5 b6 b7 b8 b9 b10 b11 b12 b13 b14 b15 b16 b17 : Byte)
    (rest : List Byte) (t : τ) (h0 : b0.val = 0xC5) :
    ParseWithTime (b0 :: b1 :: b2 :: b3 :: b4 :: b5 :: b6 :: b7 :: b8 :: b9 :: b10 :: b11 ::
        b12 :: b13 :: b14 :: b15 :: b16 :: b17 :: rest) t
      = .ok (cutReading t b1 b2 b3 b4 b5 b6 b7 b8 b9 b10 b11 b12 b13 b14 b15 b16 b17) := by
  have h := (ParseWithTime_cons_cut b0 _ t h0).trans
    ((if_neg (by simp only [List.length_cons]; omega)).trans
      (decodeFields_cut b0 b1 b2 b3 b4 b5 b6 b7 b8 b9 b10 b11 b12 b13 b14 b15 b16 b17
        rest t (by rw [h0]; decide)))
  rw [h, h0]
  rfl

/-- A successful `ParseWithTime` is one of the two layouts, written out. -/
theorem ParseWithTime_ok_cases {τ : Type} (d : List Byte) (t : τ) (r : RuuviRawV2 τ)
    (h : ParseWithTime d t = .ok r) :
    (∃ b0 b1 b2 b3 b4 b5 b6 b7 b8 b9 b10 b11 b12 b13 b14 b15 b16 b17 b18 b19 b20 b21 b22 b23
        rest, b0.val = 0x05 ∧
      d = b0 :: b1 :: b2 :: b3 :: b4 :: b5 :: b6 :: b7 :: b8 :: b9 :: b10 :: b11 :: b12 ::
        b13 :: b14 :: b15 :: b16 :: b17 :: b18 :: b19 :: b20 :: b21 :: b22 :: b23 :: rest ∧
      r = plainReading t b1 b2 b3 b4 b5 b6 b7 b8 b9 b10 b11 b12 b13 b14 b15 b16 b17 b18 b19
          b20 b21 b22 b23) ∨
    (∃ b0 b1 b2 b3 b4 b5 b6 b7 b8 b9 b10 b11 b12 b13 b14 b15 b16 b17 rest, b0.val = 0xC5 ∧
      d = b0 :: b1 :: b2 :: b3 :: b4 :: b5 :: b6 :: b7 :: b8 :: b9 :: b10 :: b11 :: b12 ::
        b13 :: b14 :: b15 :: b16 :: b17 :: rest ∧
      r = cutReading t b1 b2 b3 b4 b5 b6 b7 b8 b9 b10 b11 b12 b13 b14 b15 b16 b17) := by
  rcases d with _ | ⟨b, tl⟩
  · rw [ParseWithTime_nil] at h
    cases h
  · by_cases h5 : b.val = 0x05
    · left
      by_cases hl : (b :: tl).length < 24
      · rw [ParseWithTime_cons_plain b tl t h5, if_pos hl] at h
        cases h
      · obtain ⟨b0, b1, b2, b3, b4, b5, b6, b7, b8, b9, b10, b11, b12, b13, b14, b15, b16,
          b17, b18, b19, b20, b21, b22, b23, rest, hd⟩ := shape24 (b :: tl) (by omega)
        have hb : b = b0 := by
          have := congrArg List.head? hd
          simpa using this
        rw [hd, ParseWithTime_plain _ _ _ _ _ _ _ _ _ _ _ _ _ _ _ _ _ _ _ _ _ _ _ _ _ t
          (hb ▸ h5)] at h
        cases h
        exact ⟨b0, b1, b2, b3, b4, b5, b6, b7, b8, b9, b10, b11, b12, b13, b14, b15, b16,
          b17, b18, b19, b20, b21, b22, b23, rest, hb ▸ h5, hd, rfl⟩
    · by_cases hC5 : b.val = 0xC5
      · right
        by_cases hl : (b :: tl).length < 18
        · rw [ParseWithTime_cons_cut b tl t hC5, if_pos hl] at h
          cases h
        · obtain ⟨b0, b1, b2, b3, b4, b5, b6, b7, b8, b9, b10, b11, b12, b13, b14, b15, b16,
            b17, rest, hd⟩ := shape18 (b :: tl) (by omega)
          have hb : b = b0 := by
            have := congrArg List.head? hd
            simpa using this
          rw [hd, ParseWithTime_cut _ _ _ _ _ _ _ _ _ _ _ _ _ _ _ _ _ _ _ t (hb ▸ hC5)] at h
          cases h
          exact ⟨b0, b1, b2, b3, b4, b5, b6, b7, b8, b9, b10, b11, b12, b13, b14, b15, b16,
            b17, rest, hb ▸ hC5, hd, rfl⟩
      · rw [ParseWithTime_cons_other b tl t h5 hC5] at h
        cases h

theorem newTemperature_invalid (raw : U16) (h : (newTemperature raw).Valid = false) :
    (newTemperature raw).Value = F32.mul (F32.ofInt (-32768)) (F32.const 5 3) := by
  by_cases hr : raw.val = 0x8000
  · simp only [newTemperature, hr]
    rfl
  · simp [newTemperature, hr] at h

theorem newHumidity_invalid (raw : U16) (h : (newHumidity raw).Valid = false) :
    (newHumidity raw).Value = F32.mul (F32.ofInt 65535) (F32.const 25 4) := by
  by_cases hr : raw.val = 0xffff
  · simp only [newHumidity, hr]
    rfl
  · simp [newHumidity, hr] at h

theorem newPressure_invalid (raw : U16) (h : (newPressure raw).Valid = false) :
    (newPressure raw).Value = 115535 := by
  by_cases hr : raw.val = 0xffff
  · simp only [newPressure, hr]
    rfl
  · simp [newPressure, hr] at h

theorem newAcceleration_invalid (raw : U16) (h : (newAcceleration raw).Valid = false) :
    (newAcceleration raw).Value = -32768 := by
  by_cases hr : raw.val = 0x8000
  · simp only [newAcceleration, hr]
    rfl
  · simp [newAcceleration, hr] at h

theorem newBatteryVoltage_invalid (raw : U16) (h : (newBatteryVoltage raw).Valid = false) :
    (newBatteryVoltage raw).Value =
      F32.add (F32.div (F32.ofInt 2047) (F32.const 1000 0)) (F32.const 16 1) := by
  by_cases hr : raw.val >>> 5 = 0x7ff
  · simp only [newBatteryVoltage, hr]
    rfl
  · simp [newBatteryVoltage, hr] at h

theorem newTransmitPower_invalid (raw : U16) (h : (newTransmitPower raw).Valid = false) :
    (newTransmitPower raw).Value = 22 := by
  by_cases hr : raw.val &&& 0b11111 = 0x1f
  · simp only [newTransmitPower, hr]
    rfl
  · simp [newTransmitPower, hr] at h

theorem newMovementCounter_invalid (raw : Byte) (h : (newMovementCounter raw).Valid = false) :
    (newMovementCounter raw).Value = 255 := by
  by_cases hr : raw.val = 0xff
  · simp only [newMovementCounter, hr]
  · simp [newMovementCounter, hr] at h

theorem newSequenceNumber_invalid (raw : U16) (h : (newSequenceNumber raw).Valid = false) :
    (newSequenceNumber raw).Value = 65535 := by
  by_cases hr : raw.val = 0xffff
  · simp only [newSequenceNumber, hr]
  · simp [newSequenceNumber, hr] at h

/-- C17 as stated fails: the cut-format vector `VECTOR_GOOD_CUT` is decoded to
a reading whose `AccelerationX` is invalid and holds 0, not the sentinel
-32768. -/
theorem C17_cut_acceleration_counterexample :
    ¬ (∀ r : RuuviRawV2 Nat, ParseWithTime VECTOR_GOOD_CUT 0 = .ok r →
        r.AccelerationX.Valid = false → r.AccelerationX.Value = -32768) := by
  intro h
  have h0 := h _ rfl rfl
  revert h0
  decide

/-- C17, amended: in every successfully decoded reading, an invalid
temperature, humidity, pressure, battery voltage, transmit power, movement
counter or sequence number holds the decoded sentinel (pressure 115535,
transmit power 22, movement counter 255, sequence number 65535, and the scaled
images of `0x8000`, `0xFFFF` and `0x7FF` for the three floating-point
fields). An invalid acceleration of a full-format reading (`Type = 0x05`)
holds -32768; in a cut-format reading (`Type = 0xC5`) the three acceleration
fields are never decoded and hold `Valid = false`, `Value = 0`. -/
theorem C17_invalid_fields_hold_the_sentinel {τ : Type} (d : List Byte) (t : τ)
    (r : RuuviRawV2 τ) (h : ParseWithTime d t = .ok r) :
    (r.Temperature.Valid = false →
      r.Temperature.Value = F32.mul (F32.ofInt (-32768)) (F32.const 5 3)) ∧
    (r.Humidity.Valid = false →
      r.Humidity.Value = F32.mul (F32.ofInt 65535) (F32.const 25 4)) ∧
    (r.Pressure.Valid = false → r.Pressure.Value = 115535) ∧
    (r.BatteryVoltage.Valid = false →
      r.BatteryVoltage.Value =
        F32.add (F32.div (F32.ofInt 2047) (F32.const 1000 0)) (F32.const 16 1)) ∧
    (r.TransmitPower.Valid = false → r.TransmitPower.Value = 22) ∧
    (r.MovementCounter.Valid = false → r.MovementCounter.Value = 255) ∧
    (r.SequenceNumber.Valid = false → r.SequenceNumber.Value = 65535) ∧
    (r.Type_ = 0x05 ∨ r.Type_ = 0xC5) ∧
    (r.Type_ = 0x05 →
      (r.AccelerationX.Valid = false → r.AccelerationX.Value = -32768) ∧
      (r.AccelerationY.Valid = false → r.AccelerationY.Value = -32768) ∧
      (r.AccelerationZ.Valid = false → r.AccelerationZ.Value = -32768)) ∧
    (r.Type_ = 0xC5 →
      r.AccelerationX = { Valid := false, Value := 0 } ∧
      r.AccelerationY = { Valid := false, Value := 0 } ∧
      r.AccelerationZ = { Valid := false, Value := 0 }) := by
  rcases ParseWithTime_ok_cases d t r h with
    ⟨b0, b1, b2, b3, b4, b5, b6, b7, b8, b9, b10, b11, b12, b13, b14, b15, b16, b17, b18,
      b19, b20, b21, b22, b23, rest, -, -, rfl⟩ |
    ⟨b0, b1, b2, b3, b4, b5, b6, b7, b8, b9, b10, b11, b12, b13, b14, b15, b16, b17, rest,
      -, -, rfl⟩
  · refine ⟨newTemperature_invalid _, newHumidity_invalid _, newPressure_invalid _,
      newBatteryVoltage_invalid _, newTransmitPower_invalid _, newMovementCounter_invalid _,
      newSequenceNumber_invalid _, Or.inl rfl,
      fun _ => ⟨newAcceleration_invalid _, newAcceleration_invalid _,
        newAcceleration_invalid _⟩, fun hc => ?_⟩
    exact absurd (show (0x05 : Nat) = 0xC5 from hc) (by decide)
  · refine ⟨newTemperature_invalid _, newHumidity_invalid _, newPressure_invalid _,
      newBatteryVoltage_invalid _, newTransmitPower_invalid _, newMovementCounter_invalid _,
      newSequenceNumber_invalid _, Or.inr rfl, fun hc => ?_, fun _ => ⟨rfl, rfl, rfl⟩⟩
    exact absurd (show (0xC5 : Nat) = 0x05 from hc) (by decide)

/-- C17 amended, at `VECTOR_BAD` (every field of the full layout holds its
sentinel): pressure 115535, the accelerations -32768, transmit power 22,
movement counter 255, sequence number 65535. -/
theorem C17_invalid_fields_witness :
    ∃ r : RuuviRawV2 Nat, ParseWithTime VECTOR_BAD 0 = .ok r ∧
      r.Pressure = { Valid := false, Value := 115535 } ∧
      r.AccelerationX = { Valid := false, Value := -32768 } ∧
      r.AccelerationY = { Valid := false, Value := -32768 } ∧
      r.AccelerationZ = { Valid := false, Value := -32768 } ∧
      r.TransmitPower = { Valid := false, Value := 22 } ∧
      r.MovementCounter = { Valid := false, Value := 255 } ∧
      r.SequenceNumber = { Valid := false, Value := 65535 } ∧
      r.Temperature.Value = F32.mul (F32.ofInt (-32768)) (F32.const 5 3) := by
  refine ⟨_, rfl, by decide, by decide, by decide, by decide, by decide, by decide,
    by decide, ?_⟩
  exact (C17_invalid_fields_hold_the_sentinel VECTOR_BAD 0 _ rfl).1 (by decide)

/-- A buffer of exactly six bytes, written out. -/
theorem shape6 (x : List Byte) (h : x.length = 6) :
    ∃ x0 x1 x2 x3 x4 x5, x = [x0, x1, x2, x3, x4, x5] := by
  iterate 6
    rcases x with _ | ⟨b, x⟩
    · simp only [List.length_cons, List.length_nil] at h; omega
  rcases x with _ | ⟨b, x⟩
  · exact ⟨_, _, _, _, _, _, rfl⟩
  · simp only [List.length_cons] at h; omega

/-- C18: for every cut buffer `d` (tag `0xC5`, at least 18 bytes), every six
bytes `x` and every timestamp `t`, the full buffer made of the tag `0x05`,
bytes 1 to 6 of `d`, the six bytes `x` and bytes 7 to 17 of `d` is decoded,
and the two readings agree on temperature, humidity, pressure, battery
voltage, transmit power, movement counter, sequence number, MAC and timestamp.
They differ in `Type` (`0xC5` against `0x05`) and in the acceleration fields:
invalid in the cut reading, decoded from `x` in the full one. -/
theorem C18_cut_is_full_without_acceleration {τ : Type} (d x : List Byte) (t : τ)
    (hlen : 18 ≤ d.length) (htag : d[0] = 0xC5) (hx : x.length = 6) :
    ∃ rc rf,
      ParseWithTime d t = .ok rc ∧
      ParseWithTime (0x05 :: ((d.drop 1).take 6 ++ x ++ (d.drop 7).take 11)) t = .ok rf ∧
      rc.Temperature = rf.Temperature ∧ rc.Humidity = rf.Humidity ∧
      rc.Pressure = rf.Pressure ∧ rc.BatteryVoltage = rf.BatteryVoltage ∧
      rc.TransmitPower = rf.TransmitPower ∧ rc.MovementCounter = rf.MovementCounter ∧
      rc.SequenceNumber = rf.SequenceNumber ∧
      (∀ i : Fin 6, rc.MAC.Value i = rf.MAC.Value i) ∧
      rc.Timestamp = rf.Timestamp ∧
      rc.Type_ = 0xC5 ∧ rf.Type_ = 0x05 ∧
      rc.AccelerationX.Valid = false ∧ rc.AccelerationY.Valid = false ∧
      rc.AccelerationZ.Valid = false ∧
      rf.AccelerationX = newAcceleration (BE16 (x.getD 0 0) (x.getD 1 0)) ∧
      rf.AccelerationY = newAcceleration (BE16 (x.getD 2 0) (x.getD 3 0)) ∧
      rf.AccelerationZ = newAcceleration (BE16 (x.getD 4 0) (x.getD 5 0)) := by
  obtain ⟨b0, b1, b2, b3, b4, b5, b6, b7, b8, b9, b10, b11, b12, b13, b14, b15, b16, b17,
    rest, rfl⟩ := shape18 d hlen
  obtain ⟨x0, x1, x2, x3, x4, x5, rfl⟩ := shape6 x hx
  have hb : b0.val = 0xC5 := by
    have : b0 = 0xC5 := by simpa using htag
    rw [this]; rfl
  have hc := ParseWithTime_cut b0 b1 b2 b3 b4 b5 b6 b7 b8 b9 b10 b11 b12 b13 b14 b15 b16 b17
    rest t hb
  have hf := ParseWithTime_plain 0x05 b1 b2 b3 b4 b5 b6 x0 x1 x2 x3 x4 x5 b7 b8 b9 b10 b11
    b12 b13 b14 b15 b16 b17 [] t rfl
  refine ⟨cutReading t b1 b2 b3 b4 b5 b6 b7 b8 b9 b10 b11 b12 b13 b14 b15 b16 b17,
    plainReading t b1 b2 b3 b4 b5 b6 x0 x1 x2 x3 x4 x5 b7 b8 b9 b10 b11 b12 b13 b14 b15 b16 b17,
    hc, ?_, rfl, rfl, rfl, rfl, rfl, rfl, rfl, fun _ => rfl, rfl, rfl, rfl,
    rfl, rfl, rfl, rfl, rfl, rfl⟩
  simpa using hf

/-- C18, at the test vectors: `VECTOR_GOOD_CUT` with the six acceleration
bytes of `VECTOR_GOOD` put back is `VECTOR_GOOD`, and the two readings agree
outside `Type` and the acceleration fields. -/
theorem C18_cut_is_full_witness :
    (0x05 :: ((VECTOR_GOOD_CUT.drop 1).take 6 ++ [0x00, 0x04, 0xFF, 0xFC, 0x04, 0x0C] ++
        (VECTOR_GOOD_CUT.drop 7).take 11) = VECTOR_GOOD) ∧
    ∃ rc rf : RuuviRawV2 Nat,
      ParseWithTime VECTOR_GOOD_CUT 1700000000 = .ok rc ∧
      ParseWithTime VECTOR_GOOD 1700000000 = .ok rf ∧
      rc.Temperature = rf.Temperature ∧ rc.Pressure = rf.Pressure ∧
      rc.TransmitPower = rf.TransmitPower ∧ rc.Timestamp = rf.Timestamp ∧
      rc.AccelerationX.Valid = false ∧ rf.AccelerationX = { Valid := true, Value := 4 } := by
  refine ⟨by decide, ?_⟩
  obtain ⟨rc, rf, hc, hf, hT, -, hP, -, hW, -, -, -, hts, -, -, hX, -, -, hfX, -, -⟩ :=
    C18_cut_is_full_without_acceleration VECTOR_GOOD_CUT [0x00, 0x04, 0xFF, 0xFC, 0x04, 0x0C]
      (1700000000 : Nat) (by decide) (by decide) (by decide)
  exact ⟨rc, rf, hc, hf, hT, hP, hW, hts, hX, by rw [hfX]; decide⟩

/-- A buffer with tag `0x05` and at least 24 bytes is decoded like its first
24 bytes. -/
theorem ParseWithTime_plain_take {τ : Type} (d : List Byte) (t : τ)
    (h0 : d[0]? = some 0x05) (hlen : 24 ≤ d.length) :
    ParseWithTime d t = ParseWithTime (d.take 24) t := by
  obtain ⟨b0, b1, b2, b3, b4, b5, b6, b7, b8, b9, b10, b11, b12, b13, b14, b15, b16, b17,
    b18, b19, b20, b21, b22, b23, rest, rfl⟩ := shape24 d hlen
  have hb : b0.val = 0x05 := by
    have : b0 = 0x05 := by simpa using h0
    rw [this]; rfl
  simp only [List.take_succ_cons, List.take_zero]
  rw [ParseWithTime_plain _ _ _ _ _ _ _ _ _ _ _ _ _ _ _ _ _ _ _ _ _ _ _ _ rest t hb,
    ParseWithTime_plain _ _ _ _ _ _ _ _ _ _ _ _ _ _ _ _ _ _ _ _ _ _ _ _ [] t hb]

/-- A buffer with tag `0xC5` and at least 18 bytes is decoded like its first
18 bytes. -/
theorem ParseWithTime_cut_take {τ : Type} (d : List Byte) (t : τ)
    (h0 : d[0]? = some 0xC5) (hlen : 18 ≤ d.length) :
    ParseWithTime d t = ParseWithTime (d.take 18) t := by
  obtain ⟨b0, b1, b2, b3, b4, b5, b6, b7, b8, b9, b10, b11, b12, b13, b14, b15, b16, b17,
    rest, rfl⟩ := shape18 d hlen
  have hb : b0.val = 0xC5 := by
    have : b0 = 0xC5 := by simpa using h0
    rw [this]; rfl
  simp only [List.take_succ_cons, List.take_zero]
  rw [ParseWithTime_cut _ _ _ _ _ _ _ _ _ _ _ _ _ _ _ _ _ _ rest t hb,
    ParseWithTime_cut _ _ _ _ _ _ _ _ _ _ _ _ _ _ _ _ _ _ [] t hb]

theorem take_eq_imp {n : Nat} (hn : 0 < n) (d d' : List Byte) (hlen : n ≤ d.length)
    (h : d'.take n = d.take n) : n ≤ d'.length ∧ d'[0]? = d[0]? := by
  constructor
  · have hl := congrArg List.length h
    simp only [List.length_take] at hl
    omega
  · have h0 := congrArg (fun l => l[0]?) h
    simpa [List.getElem?_take, hn] using h0

theorem ParseWithTime_plain_ok {τ : Type} (d : List Byte) (t : τ)
    (h0 : d[0]? = some 0x05) (hlen : 24 ≤ d.length) : ∃ r, ParseWithTime d t = .ok r := by
  obtain ⟨b0, b1, b2, b3, b4, b5, b6, b7, b8, b9, b10, b11, b12, b13, b14, b15, b16, b17,
    b18, b19, b20, b21, b22, b23, rest, rfl⟩ := shape24 d hlen
  have hb : b0.val = 0x05 := by
    have : b0 = 0x05 := by simpa using h0
    rw [this]; rfl
  exact ⟨_, ParseWithTime_plain _ _ _ _ _ _ _ _ _ _ _ _ _ _ _ _ _ _ _ _ _ _ _ _ rest t hb⟩

theorem ParseWithTime_cut_ok {τ : Type} (d : List Byte) (t : τ)
    (h0 : d[0]? = some 0xC5) (hlen : 18 ≤ d.length) : ∃ r, ParseWithTime d t = .ok r := by
  obtain ⟨b0, b1, b2, b3, b4, b5, b6, b7, b8, b9, b10, b11, b12, b13, b14, b15, b16, b17,
    rest, rfl⟩ := shape18 d hlen
  have hb : b0.val = 0xC5 := by
    have : b0 = 0xC5 := by simpa using h0
    rw [this]; rfl
  exact ⟨_, ParseWithTime_cut _ _ _ _ _ _ _ _ _ _ _ _ _ _ _ _ _ _ rest t hb⟩

/-- C19: bytes beyond the fixed layout are ignored. For a buffer `d` with a
recognised tag and at least that tag's minimum length (24 for `0x05`, 18 for
`0xC5`), every byte sequence `e` and every timestamp `t`,
`ParseWithTime (d ++ e) t` returns the reading `ParseWithTime d t` returns,
whose `Timestamp` is `t`. The result is the result on the first 24 (18) bytes,
so two buffers that agree on them are decoded alike. -/
theorem C19_trailing_bytes_are_ignored {τ : Type} (d e : List Byte) (t : τ)
    (h : (d[0]? = some 0x05 ∧ 24 ≤ d.length) ∨ (d[0]? = some 0xC5 ∧ 18 ≤ d.length)) :
    ParseWithTime (d ++ e) t = ParseWithTime d t ∧
    (∃ r, ParseWithTime d t = .ok r ∧ ParseWithTime (d ++ e) t = .ok r ∧ r.Timestamp = t) ∧
    (d[0]? = some 0x05 → ParseWithTime d t = ParseWithTime (d.take 24) t) ∧
    (d[0]? = some 0xC5 → ParseWithTime d t = ParseWithTime (d.take 18) t) ∧
    (∀ d' : List Byte,
      (d[0]? = some 0x05 → d'.take 24 = d.take 24) →
      (d[0]? = some 0xC5 → d'.take 18 = d.take 18) →
      ParseWithTime d' t = ParseWithTime d t) := by
  have hts : ∀ r : RuuviRawV2 τ, ParseWithTime d t = .ok r → r.Timestamp = t := by
    intro r hr
    rcases ParseWithTime_ok_cases d t r hr with
      ⟨b0, b1, b2, b3, b4, b5, b6, b7, b8, b9, b10, b11, b12, b13, b14, b15, b16, b17, b18,
        b19, b20, b21, b22, b23, rest, -, -, rfl⟩ |
      ⟨b0, b1, b2, b3, b4, b5, b6, b7, b8, b9, b10, b11, b12, b13, b14, b15, b16, b17, rest,
        -, -, rfl⟩
    · rfl
    · rfl
  rcases h with ⟨h0, hlen⟩ | ⟨h0, hlen⟩
  · have hne : ¬ d[0]? = some 0xC5 := by rw [h0]; decide
    have happ : ParseWithTime (d ++ e) t = ParseWithTime d t := by
      have h0' : (d ++ e)[0]? = some 0x05 := by
        rw [List.getElem?_append_left (by omega)]; exact h0
      rw [ParseWithTime_plain_take (d ++ e) t h0' (by simp only [List.length_append]; omega),
        ParseWithTime_plain_take d t h0 hlen, List.take_append_of_le_length hlen]
    obtain ⟨r, hr⟩ := ParseWithTime_plain_ok d t h0 hlen
    refine ⟨happ, ⟨r, hr, happ.trans hr, hts r hr⟩,
      fun _ => ParseWithTime_plain_take d t h0 hlen, fun hc => absurd hc hne,
      fun d' h24 _ => ?_⟩
    obtain ⟨hl', h0'⟩ := take_eq_imp (by decide) d d' hlen (h24 h0)
    rw [ParseWithTime_plain_take d' t (h0'.trans h0) hl', h24 h0,
      ← ParseWithTime_plain_take d t h0 hlen]
  · have hne : ¬ d[0]? = some 0x05 := by rw [h0]; decide
    have happ : ParseWithTime (d ++ e) t = ParseWithTime d t := by
      have h0' : (d ++ e)[0]? = some 0xC5 := by
        rw [List.getElem?_append_left (by omega)]; exact h0
      rw [ParseWithTime_cut_take (d ++ e) t h0' (by simp only [List.length_append]; omega),
        ParseWithTime_cut_take d t h0 hlen, List.take_append_of_le_length hlen]
    obtain ⟨r, hr⟩ := ParseWithTime_cut_ok d t h0 hlen
    refine ⟨happ, ⟨r, hr, happ.trans hr, hts r hr⟩, fun hc => absurd hc hne,
      fun _ => ParseWithTime_cut_take d t h0 hlen, fun d' _ h18 => ?_⟩
    obtain ⟨hl', h0'⟩ := take_eq_imp (by decide) d d' hlen (h18 h0)
    rw [ParseWithTime_cut_take d' t (h0'.trans h0) hl', h18 h0,
      ← ParseWithTime_cut_take d t h0 hlen]

/-- C19, at the test vectors: `VECTOR_GOOD` followed by three more bytes is
decoded like `VECTOR_GOOD`, and `VECTOR_GOOD_CUT` followed by the six bytes
that would make it a full packet is decoded like `VECTOR_GOOD_CUT`. -/
theorem C19_trailing_bytes_witness :
    ParseWithTime (VECTOR_GOOD ++ [0xDE, 0xAD, 0xFF]) (1700000000 : Nat)
      = ParseWithTime VECTOR_GOOD 1700000000 ∧
    ParseWithTime (VECTOR_GOOD_CUT ++ [0x00, 0x04, 0xFF, 0xFC, 0x04, 0x0C]) (1700000000 : Nat)
      = ParseWithTime VECTOR_GOOD_CUT 1700000000 :=
  ⟨(C19_trailing_bytes_are_ignored VECTOR_GOOD [0xDE, 0xAD, 0xFF] (1700000000 : Nat)
      (Or.inl ⟨by decide, by decide⟩)).1,
   (C19_trailing_bytes_are_ignored VECTOR_GOOD_CUT [0x00, 0x04, 0xFF, 0xFC, 0x04, 0x0C]
      (1700000000 : Nat) (Or.inr ⟨by decide, by decide⟩)).1⟩

/-! ## The binary32 value of the scaled fields -/

theorem abs_roundHalfEven_sub (y : ℚ) : |((roundHalfEven y : ℤ) : ℚ) - y| ≤ 1 / 2 := by
  have h1 := Int.floor_le y
  have h2 := Int.lt_floor_add_one y
  unfold roundHalfEven
  rw [abs_le]
  split_ifs <;> push_cast <;> constructor <;> linarith

/-- Half of the spacing of binary32 around `x` is at most `|x| * 2^(-24)`, or
`2^(-150)` in the subnormal range. -/
theorem round32_quantum (x : ℚ) (hx : x ≠ 0) :
    (2 : ℚ) ^ (max (Int.log 2 |x|) (-126) - 23) / 2 ≤ |x| / 2 ^ 24 + 1 / 2 ^ 150 := by
  have hpos : 0 < |x| := abs_pos.mpr hx
  rcases le_total (Int.log 2 |x|) (-126) with hle | hle
  · rw [max_eq_right hle]
    have h : (2 : ℚ) ^ ((-126 : ℤ) - 23) / 2 = 1 / 2 ^ 150 := by
      norm_num [zpow_neg]
    rw [h]
    have : 0 ≤ |x| / 2 ^ 24 := by positivity
    linarith
  · rw [max_eq_left hle]
    have hz : ((2 : ℕ) : ℚ) ^ Int.log 2 |x| ≤ |x| := Int.zpow_log_le_self (by norm_num) hpos
    have h : (2 : ℚ) ^ (Int.log 2 |x| - 23) / 2 = (2 : ℚ) ^ Int.log 2 |x| / 2 ^ 24 := by
      rw [zpow_sub₀ (by norm_num : (2 : ℚ) ≠ 0)]
      norm_num
      ring
    rw [h]
    have h1 : (2 : ℚ) ^ Int.log 2 |x| / 2 ^ 24 ≤ |x| / 2 ^ 24 := by
      apply div_le_div_of_nonneg_right _ (by positivity)
      exact_mod_cast hz
    have : (0 : ℚ) ≤ 1 / 2 ^ 150 := by positivity
    linarith

/-- Rounding to binary32 of a number of magnitude at most `2^127` is finite,
with relative error at most `2^(-24)` up to the subnormal term `2^(-150)`. -/
theorem round32_near (x : ℚ) (hx : |x| ≤ 2 ^ 127) :
    ∃ v, round32 x = some v ∧ |v - x| ≤ |x| / 2 ^ 24 + 1 / 2 ^ 150 := by
  by_cases h0 : x = 0
  · refine ⟨0, by simp [round32, h0], ?_⟩
    rw [h0]
    simp
  · have hqpos : (0 : ℚ) < 2 ^ (max (Int.log 2 |x|) (-126) - 23) := by positivity
    have herr : |((roundHalfEven (x / 2 ^ (max (Int.log 2 |x|) (-126) - 23)) : ℤ) : ℚ) *
        2 ^ (max (Int.log 2 |x|) (-126) - 23) - x| ≤ |x| / 2 ^ 24 + 1 / 2 ^ 150 := by
      refine le_trans ?_ (round32_quantum x h0)
      have h := abs_roundHalfEven_sub (x / 2 ^ (max (Int.log 2 |x|) (-126) - 23))
      have e : ((roundHalfEven (x / 2 ^ (max (Int.log 2 |x|) (-126) - 23)) : ℤ) : ℚ) *
          2 ^ (max (Int.log 2 |x|) (-126) - 23) - x =
          (((roundHalfEven (x / 2 ^ (max (Int.log 2 |x|) (-126) - 23)) : ℤ) : ℚ) -
            x / 2 ^ (max (Int.log 2 |x|) (-126) - 23)) *
            2 ^ (max (Int.log 2 |x|) (-126) - 23) := by
        field_simp
      rw [e, abs_mul, abs_of_pos hqpos]
      nlinarith
    refine ⟨_, ?_, herr⟩
    unfold round32
    rw [if_neg h0]
    simp only
    rw [if_neg]
    rw [not_le]
    have h1 := abs_sub_abs_le_abs_sub
      (((roundHalfEven (x / 2 ^ (max (Int.log 2 |x|) (-126) - 23)) : ℤ) : ℚ) *
        2 ^ (max (Int.log 2 |x|) (-126) - 23)) x
    have h2 : |x| / 2 ^ 24 + 1 / 2 ^ 150 < (2 : ℚ) ^ 127 := by
      have : |x| / 2 ^ 24 ≤ 2 ^ 127 / 2 ^ 24 := div_le_div_of_nonneg_right hx (by positivity)
      have h3 : (2 : ℚ) ^ 127 / 2 ^ 24 + 1 / 2 ^ 150 < 2 ^ 127 := by norm_num
      linarith
    have h4 : (2 : ℚ) ^ 127 + 2 ^ 127 = 2 ^ 128 := by norm_num
    linarith

theorem round32_within (x B : ℚ) (hB : |x| ≤ B) (hB2 : B ≤ 2 ^ 127) :
    ∃ v, round32 x = some v ∧ |v - x| ≤ B / 2 ^ 24 + 1 / 2 ^ 150 := by
  obtain ⟨v, hv, h⟩ := round32_near x (hB.trans hB2)
  refine ⟨v, hv, h.trans ?_⟩
  have : |x| / 2 ^ 24 ≤ B / 2 ^ 24 := div_le_div_of_nonneg_right hB (by positivity)
  linarith

theorem abs_le_of_near (v x B δ : ℚ) (h : |v - x| ≤ δ) (hx : |x| ≤ B) : |v| ≤ B + δ := by
  have := abs_sub_abs_le_abs_sub v x
  linarith

theorem abs_mul_sub_le (a c s k δa δc S C : ℚ) (ha : |a - s| ≤ δa) (hc : |c - k| ≤ δc)
    (hs : |s| ≤ S) (hC : |c| ≤ C) : |a * c - s * k| ≤ δa * C + S * δc := by
  have e : a * c - s * k = (a - s) * c + s * (c - k) := by ring
  rw [e]
  refine (abs_add _ _).trans ?_
  rw [abs_mul, abs_mul]
  have h1 : |a - s| * |c| ≤ δa * C :=
    mul_le_mul ha hC (abs_nonneg _) ((abs_nonneg _).trans ha)
  have h2 : |s| * |c - k| ≤ S * δc :=
    mul_le_mul hs hc (abs_nonneg _) ((abs_nonneg _).trans hs)
  linarith

theorem abs_div_sub_le (a k r δa δk R : ℚ) (ha : |a - r| ≤ δa) (hk : |k - 1000| ≤ δk)
    (hr : |r| ≤ R) (hδ : δk ≤ 1) :
    0 < k ∧ |a / k - r / 1000| ≤ (1000 * δa + R * δk) / (1000 * 999) := by
  have hk2 := abs_le.mp hk
  have hkpos : 0 < k := by linarith
  refine ⟨hkpos, ?_⟩
  have e : a / k - r / 1000 = (1000 * (a - r) + r * (1000 - k)) / (1000 * k) := by
    field_simp
    ring
  rw [e, abs_div, abs_of_pos (by positivity : 0 < 1000 * k)]
  have hnum : |1000 * (a - r) + r * (1000 - k)| ≤ 1000 * δa + R * δk := by
    refine (abs_add _ _).trans ?_
    rw [abs_mul, abs_mul, abs_sub_comm (1000 : ℚ) k]
    have h1 : |(1000 : ℚ)| * |a - r| ≤ 1000 * δa := by
      rw [abs_of_pos (by norm_num : (0 : ℚ) < 1000)]
      linarith
    have h2 : |r| * |k - 1000| ≤ R * δk :=
      mul_le_mul hr hk (abs_nonneg _) ((abs_nonneg _).trans hr)
    linarith
  exact div_le_div₀ ((abs_nonneg _).trans hnum) hnum (by norm_num) (by linarith)

theorem abs_int16_le (n : Nat) : |((int16 n : ℤ) : ℚ)| ≤ 32768 := by
  have h : -32768 ≤ int16 n ∧ int16 n ≤ 32768 := by
    unfold int16
    split_ifs <;> omega
  rw [abs_le]
  constructor
  · exact_mod_cast h.1
  · exact_mod_cast h.2

theorem eval_ofInt (i : ℤ) : (F32.ofInt i).eval = round32 (i : ℚ) := rfl

theorem eval_const (m e : ℕ) : (F32.const m e).eval = round32 ((m : ℚ) / 10 ^ e) := rfl

theorem eval_mul_some (a b : F32) (x y : ℚ) (ha : a.eval = some x) (hb : b.eval = some y) :
    (F32.mul a b).eval = round32 (x * y) := by
  simp only [F32.eval, ha, hb]

theorem eval_div_some (a b : F32) (x y : ℚ) (ha : a.eval = some x) (hb : b.eval = some y)
    (hy : y ≠ 0) : (F32.div a b).eval = round32 (x / y) := by
  simp only [F32.eval, ha, hb, if_neg hy]

theorem eval_add_some (a b : F32) (x y : ℚ) (ha : a.eval = some x) (hb : b.eval = some y) :
    (F32.add a b).eval = round32 (x + y) := by
  simp only [F32.eval, ha, hb]

/-- The product `float32(i) * k` of a converted integer and a decimal constant
`k = m / 10^e`: the conversion of `i`, the conversion of `k` and the product
are each rounded once. -/
theorem eval_mul_ofInt_const (i : ℤ) (m e : ℕ) (S k δa δc C P : ℚ)
    (hk : (m : ℚ) / 10 ^ e = k)
    (hS : |(i : ℚ)| ≤ S) (hS2 : S ≤ 2 ^ 127)
    (hk0 : |k| ≤ k) (hk2 : k ≤ 2 ^ 127)
    (hδa : S / 2 ^ 24 + 1 / 2 ^ 150 ≤ δa) (hδc : k / 2 ^ 24 + 1 / 2 ^ 150 ≤ δc)
    (hC : k + δc ≤ C) (hP : S * k + (δa * C + S * δc) ≤ P) (hP2 : P ≤ 2 ^ 127) :
    ∃ v, (F32.mul (F32.ofInt i) (F32.const m e)).eval = some v ∧
      |v - (i : ℚ) * k| ≤ (P / 2 ^ 24 + 1 / 2 ^ 150) + (δa * C + S * δc) := by
  obtain ⟨a, ha, ea⟩ := round32_within (i : ℚ) S hS hS2
  obtain ⟨c, hc, ec⟩ := round32_within k k hk0 hk2
  have ea2 := ea.trans hδa
  have ec2 := ec.trans hδc
  have hcC : |c| ≤ C := (abs_le_of_near c k k _ ec2 hk0).trans hC
  have hprod := abs_mul_sub_le a c i k δa δc S C ea2 ec2 hS hcC
  have hik : |(i : ℚ) * k| ≤ S * k := by
    rw [abs_mul]
    exact mul_le_mul hS hk0 (abs_nonneg _) ((abs_nonneg _).trans hS)
  have hac : |a * c| ≤ P := (abs_le_of_near _ _ _ _ hprod hik).trans hP
  obtain ⟨v, hv, ev⟩ := round32_within (a * c) P hac hP2
  have h1 : (F32.ofInt i).eval = some a := by rw [eval_ofInt, ha]
  have h2 : (F32.const m e).eval = some c := by rw [eval_const, hk, hc]
  refine ⟨v, (eval_mul_some _ _ a c h1 h2).trans hv, ?_⟩
  exact (abs_sub_le v (a * c) _).trans (add_le_add ev hprod)

/-- The temperature in binary32 is within 1e-4 of `s * 0.005`. -/
theorem eval_temperature (raw : U16) :
    ∃ v, (newTemperature raw).Value.eval = some v ∧
      |v - ((int16 raw.val : ℤ) : ℚ) * (5 / 1000)| < 1 / 10000 := by
  obtain ⟨v, hv, h⟩ := eval_mul_ofInt_const (int16 raw.val) 5 3 32768 (5 / 1000)
    (1 / 500) (1 / 1000000000) (6 / 1000) 200 (by norm_num) (abs_int16_le _) (by norm_num)
    (by norm_num [abs_of_pos]) (by norm_num) (by norm_num) (by norm_num) (by norm_num)
    (by norm_num) (by norm_num)
  refine ⟨v, hv, lt_of_le_of_lt h ?_⟩
  norm_num

/-- The humidity in binary32 is within 1e-4 of `raw * 0.0025`. -/
theorem eval_humidity (raw : U16) :
    ∃ v, (newHumidity raw).Value.eval = some v ∧
      |v - (raw.val : ℚ) * (25 / 10000)| < 1 / 10000 := by
  have hraw : |(((raw.val : ℕ) : ℤ) : ℚ)| ≤ 65536 := by
    have := raw.isLt
    rw [abs_le]
    constructor
    · have : (0 : ℚ) ≤ (((raw.val : ℕ) : ℤ) : ℚ) := by positivity
      linarith
    · exact_mod_cast this.le
  obtain ⟨v, hv, h⟩ := eval_mul_ofInt_const (raw.val : ℤ) 25 4 65536 (25 / 10000)
    (1 / 250) (1 / 1000000000) (3 / 1000) 200 (by norm_num) hraw (by norm_num)
    (by norm_num [abs_of_pos]) (by norm_num) (by norm_num) (by norm_num) (by norm_num)
    (by norm_num) (by norm_num)
  refine ⟨v, hv, lt_of_le_of_lt ?_ (?_ : (200 : ℚ) / 2 ^ 24 + 1 / 2 ^ 150 +
      (1 / 250 * (3 / 1000) + 65536 * (1 / 1000000000)) < 1 / 10000)⟩
  · simpa using h
  · norm_num

/-- The sum `float32(i)/1000 + 1.6` in binary32, for `|i| ≤ 2048`: five
roundings (two conversions of constants, the conversion of `i`, the quotient,
the sum). -/
theorem eval_add_div_ofInt (i : ℤ) (hr : |(i : ℚ)| ≤ 2048) :
    ∃ v, (F32.add (F32.div (F32.ofInt i) (F32.const 1000 0)) (F32.const 16 1)).eval = some v ∧
      |v - ((i : ℚ) / 1000 + 16 / 10)| < 1 / 10000 := by
  obtain ⟨a, ha, ea⟩ := round32_within (i : ℚ) 2048 hr (by norm_num)
  have e1000 : ((1000 : ℕ) : ℚ) / 10 ^ 0 = 1000 := by norm_num
  have e16 : ((16 : ℕ) : ℚ) / 10 ^ 1 = 16 / 10 := by norm_num
  obtain ⟨k, hk, ek⟩ := round32_within (1000 : ℚ) 1000 (by norm_num [abs_of_pos]) (by norm_num)
  obtain ⟨c, hc, ec⟩ := round32_within (16 / 10 : ℚ) (16 / 10) (by norm_num [abs_of_pos])
    (by norm_num)
  obtain ⟨hkpos, hdiv⟩ := abs_div_sub_le a k (i : ℚ) _ _ 2048 ea ek hr (by norm_num)
  have hq : |(i : ℚ) / 1000| ≤ 2048 / 1000 := by
    rw [abs_div, abs_of_pos (by norm_num : (0 : ℚ) < 1000)]
    exact div_le_div_of_nonneg_right hr (by norm_num)
  have hak : |a / k| ≤ 3 :=
    (abs_le_of_near _ _ _ _ hdiv hq).trans (by norm_num)
  obtain ⟨d, hd, ed⟩ := round32_within (a / k) 3 hak (by norm_num)
  have hdq : |d - (i : ℚ) / 1000| ≤ 1 / 1000000 :=
    (abs_sub_le d (a / k) ((i : ℚ) / 1000)).trans ((add_le_add ed hdiv).trans (by norm_num))
  have hdB : |d| ≤ 3 := (abs_le_of_near _ _ _ _ hdq hq).trans (by norm_num)
  have hcB : |c| ≤ 2 :=
    (abs_le_of_near c (16 / 10) (16 / 10) _ ec (by norm_num [abs_of_pos])).trans (by norm_num)
  have hsum : |d + c| ≤ 5 := (abs_add _ _).trans (by linarith)
  obtain ⟨v, hv, ev⟩ := round32_within (d + c) 5 hsum (by norm_num)
  have h1 : (F32.const 1000 0).eval = some k := by rw [eval_const, e1000, hk]
  have h2 : (F32.const 16 1).eval = some c := by rw [eval_const, e16, hc]
  have h3 : (F32.ofInt i).eval = some a := by rw [eval_ofInt, ha]
  have h4 := (eval_div_some _ _ a k h3 h1 (ne_of_gt hkpos)).trans hd
  refine ⟨v, (eval_add_some _ _ d c h4 h2).trans hv, ?_⟩
  have h5 : |(d + c) - ((i : ℚ) / 1000 + 16 / 10)| ≤
      1 / 1000000 + (16 / 10 / 2 ^ 24 + 1 / 2 ^ 150) := by
    have e : (d + c) - ((i : ℚ) / 1000 + 16 / 10) = (d - (i : ℚ) / 1000) + (c - 16 / 10) := by
      ring
    rw [e]
    exact (abs_add _ _).trans (add_le_add hdq ec)
  refine lt_of_le_of_lt ((abs_sub_le v (d + c) _).trans (add_le_add ev h5)) ?_
  norm_num

/-- The battery voltage in binary32 is within 1e-4 of `(raw >> 5)/1000 + 1.6`. -/
theorem eval_batteryVoltage (raw : U16) :
    ∃ v, (newBatteryVoltage raw).Value.eval = some v ∧
      |v - (((raw.val >>> 5 : ℕ) : ℚ) / 1000 + 16 / 10)| < 1 / 10000 := by
  have h : raw.val >>> 5 ≤ 2048 := by
    have := raw.isLt
    rw [Nat.shiftRight_eq_div_pow]
    omega
  have hr : |(((raw.val >>> 5 : ℕ) : ℤ) : ℚ)| ≤ 2048 := by
    rw [abs_le]
    constructor
    · have : (0 : ℚ) ≤ (((raw.val >>> 5 : ℕ) : ℤ) : ℚ) := by positivity
      linarith
    · exact_mod_cast h
  obtain ⟨v, hv, hb⟩ := eval_add_div_ofInt ((raw.val >>> 5 : ℕ) : ℤ) hr
  exact ⟨v, hv, by simpa using hb⟩

/-- C12: for every 16-bit raw value the three scaled fields, computed in
binary32 (round to nearest, ties to even, one rounding for each conversion and
operation), are finite numbers within the tests' tolerance 1e-4 of the exact
transforms: the temperature of `s * 0.005`, where `s` is the two's-complement
reading of `raw` (`raw` below 32768, `raw - 65536` from there on), the humidity
of `raw * 0.0025` with `raw` unsigned, the battery voltage of
`(raw >> 5)/1000 + 1.6`. For raw `0x8001` the exact temperature is -163.835,
for `0x7FFF` it is 163.835, and the computed ones are within 1e-4 of these. -/
theorem C12_scaled_fields_within_tolerance (raw : U16) :
    (int16 raw.val = if raw.val < 32768 then (raw.val : ℤ) else (raw.val : ℤ) - 65536) ∧
    (∃ v, (newTemperature raw).Value.eval = some v ∧
      |v - ((int16 raw.val : ℤ) : ℚ) * (5 / 1000)| < 1 / 10000) ∧
    (∃ v, (newHumidity raw).Value.eval = some v ∧
      |v - (raw.val : ℚ) * (25 / 10000)| < 1 / 10000) ∧
    (∃ v, (newBatteryVoltage raw).Value.eval = some v ∧
      |v - (((raw.val >>> 5 : ℕ) : ℚ) / 1000 + 16 / 10)| < 1 / 10000) ∧
    raw.val >>> 5 = raw.val / 32 ∧
    ((int16 0x8001 : ℤ) : ℚ) * (5 / 1000) = -163835 / 1000 ∧
    ((int16 0x7FFF : ℤ) : ℚ) * (5 / 1000) = 163835 / 1000 ∧
    (∃ v, (newTemperature 0x8001).Value.eval = some v ∧ |v - (-163835 / 1000)| < 1 / 10000) ∧
    (∃ v, (newTemperature 0x7FFF).Value.eval = some v ∧ |v - 163835 / 1000| < 1 / 10000) := by
  have hlo : int16 0x8001 = -32767 := by decide
  have hhi : int16 0x7FFF = 32767 := by decide
  have elo : ((int16 0x8001 : ℤ) : ℚ) * (5 / 1000) = -163835 / 1000 := by
    rw [hlo]
    norm_num
  have ehi : ((int16 0x7FFF : ℤ) : ℚ) * (5 / 1000) = 163835 / 1000 := by
    rw [hhi]
    norm_num
  refine ⟨?_, eval_temperature raw, eval_humidity raw, eval_batteryVoltage raw, ?_, elo, ehi,
    ?_, ?_⟩
  · simp only [int16, Nat.mod_eq_of_lt raw.isLt]
  · rw [Nat.shiftRight_eq_div_pow]
  · obtain ⟨v, hv, h⟩ := eval_temperature 0x8001
    refine ⟨v, hv, ?_⟩
    rw [← elo]
    exact h
  · obtain ⟨v, hv, h⟩ := eval_temperature 0x7FFF
    refine ⟨v, hv, ?_⟩
    rw [← ehi]
    exact h

end Rawv2
